import Mathlib

/-!
Shallow embedding of the AIandMan review-queue core:
`src/state_manager.py`, `src/background_tasks.py`,
`src/ui/thumbnail_sidebar.py` (retry), `src/image_actions.py` (skip)
and `src/utils.py` (prompt parsing).

Modelling conventions:
* images are opaque tokens (`Nat`); a PIL image object is always truthy in
  Python, so the `if image:` test in the reconciler is `Option.isSome`;
* time is a `Nat` number of seconds, passed explicitly to the reconciler
  (the source reads `time.time()`);
* `uuid.uuid4()` freshness is modelled by a monotone counter `next_id`
  carried in the application state: generated ids are pairwise distinct and
  never reused, which is the property the source relies on;
* a `concurrent.futures.Future` is modelled by a snapshot of its state at
  the instant of a reconciler pass: pending (queued), running, or done with
  one of the three observable outcomes of `future.result(timeout=0.1)`
  (returns a value, raises `concurrent.futures.TimeoutError` for the
  retrieval-layer timeout, or re-raises the exception raised by the
  underlying backend call);
* calls to `future.cancel()` are recorded in the pass result so that
  cancellation attempts are observable.
-/

namespace AIandMan
/-- Item statuses, the string literals `'generating' | 'ready' | 'failed' |
'timeout' | 'cancelled'` used throughout the source. -/
inductive Status where
  | generating
  | ready
  | failed
  | timeout
  | cancelled
deriving DecidableEq, Repr

/-- The `'type'` field of a queue item: `'text_to_image'` or `'image_to_image'`. -/
inductive ItemType where
  | text_to_image
  | image_to_image
deriving DecidableEq, Repr

/-- One review-queue entry (the dict literals built in
`generate_from_prompts` / `process_images` / `modify_image`). -/
structure Item where
  id : Nat
  itype : ItemType
  image : Option Nat
  prompt : String
  original_image : Option Nat := none
  source_image : Option Nat := none
  modification_prompt : String := ""
  status : Status
deriving DecidableEq, Repr

/-- The update dict passed to `update_item_by_id`: each field is `some v`
when the corresponding key is present in the dict (note `'image': None` is a
present key whose value is `None`, hence the nested `Option`). -/
structure ItemUpdates where
  status : Option Status := none
  image : Option (Option Nat) := none
deriving DecidableEq, Repr

/-- Model of `item.update(updates)`: merge the present keys into the item. -/
def applyUpdates (u : ItemUpdates) (it : Item) : Item :=
  { it with
    status := u.status.getD it.status
    image := u.image.getD it.image }

/-- The loop body of `update_item_by_id` restricted to the queue list:
update the first item whose `id` matches and report whether one was found. -/
def updateFirstById (item_id : Nat) (u : ItemUpdates) :
    List Item → List Item × Bool
  | [] => ([], false)
  | it :: rest =>
    if it.id = item_id then (applyUpdates u it :: rest, true)
    else
      let r := updateFirstById item_id u rest
      (it :: r.1, r.2)

/-- Snapshot of a `concurrent.futures.Future` at the instant of a pass. -/
inductive FState where
  | queued
  | running
  | doneOk (img : Option Nat)
  | doneRaiseTimeout
  | doneRaiseError
deriving DecidableEq, Repr

/-- Model of `future.running()` on the snapshot. -/
def FState.isRunning : FState → Bool
  | .running => true
  | _ => false

/-- Model of `future.done()` on the snapshot. -/
def FState.isDone : FState → Bool
  | .doneOk _ => true
  | .doneRaiseTimeout => true
  | .doneRaiseError => true
  | _ => false

/-- One entry of `st.session_state.background_futures`. -/
structure FutureInfo where
  fstate : FState
  prompt : String
  item_id : Option Nat
  processing_start_time : Option Nat := none
deriving DecidableEq, Repr

/-- The whole mutable session state the claims touch
(`init_session_state` fields plus the id counter modelling uuid freshness). -/
structure AppState where
  review_queue : List Item
  image_states : List Status
  background_futures : List FutureInfo
  stats_generated : Nat
  selected_image_index : Nat
  selected_image_id : Option Nat
  next_id : Nat
deriving DecidableEq, Repr

/-- Model of `init_session_state`: everything empty, counters zero, index zero,
no `selected_image_id` attribute. -/
def init_session_state : AppState :=
  { review_queue := []
    image_states := []
    background_futures := []
    stats_generated := 0
    selected_image_index := 0
    selected_image_id := none
    next_id := 0 }

/-- Model of `TASK_TIMEOUT = 90` (`src/background_tasks.py`). -/
def TASK_TIMEOUT : Nat := 90

/-- Model of `update_item_by_id(item_id, updates)` on the session state. -/
def update_item_by_id (item_id : Nat) (u : ItemUpdates) (s : AppState) :
    AppState × Bool :=
  let r := updateFirstById item_id u s.review_queue
  ({ s with review_queue := r.1 }, r.2)

/-- Model of `remove_item_by_id(item_id)`: drop the first matching item (and the
parallel `image_states` slot), clamp the selected index, and re-point
`selected_image_id` when it named the removed item. -/
def remove_item_by_id (item_id : Nat) (s : AppState) : AppState × Bool :=
  match s.review_queue.findIdx? (fun it => it.id = item_id) with
  | none => (s, false)
  | some i =>
    let q := s.review_queue.eraseIdx i
    let states :=
      if i < s.image_states.length then s.image_states.eraseIdx i
      else s.image_states
    let idx :=
      if s.selected_image_index ≥ q.length then max 0 (q.length - 1)
      else s.selected_image_index
    let sel :=
      if s.selected_image_id = some item_id then
        if h : q ≠ [] ∧ idx < q.length then some (q.get ⟨idx, h.2⟩).id
        else none
      else s.selected_image_id
    ({ s with review_queue := q, image_states := states,
              selected_image_index := idx, selected_image_id := sel }, true)

/-- Model of `sync_selected_index()`: recompute the positional index from the
selected id; fall back to the first item when the id is gone. -/
def sync_selected_index (s : AppState) : AppState :=
  match s.selected_image_id with
  | none => s
  | some sid =>
    if hq : s.review_queue = [] then s
    else
      match s.review_queue.findIdx? (fun it => it.id = sid) with
      | some i => { s with selected_image_index := i }
      | none =>
        { s with selected_image_index := 0
                 selected_image_id :=
                   some ((s.review_queue.head hq).id) }

/-- Model of `get_current_item()`: resets an out-of-range index to 0, then returns
the item at the (possibly reset) index.  Returns the read item together
with the possibly-updated state, since the function mutates the index. -/
def get_current_item (s : AppState) : Option Item × AppState :=
  if s.review_queue = [] then (none, s)
  else
    let idx :=
      if s.selected_image_index ≥ s.review_queue.length then 0
      else s.selected_image_index
    (s.review_queue.get? idx, { s with selected_image_index := idx })

/-- Model of `update_selected_index(new_index)`: clamp into range (or 0 on an empty
queue) and re-point `selected_image_id` at the item now under the index. -/
def update_selected_index (new_index : Nat) (s : AppState) : AppState :=
  if s.review_queue ≠ [] then
    let idx := max 0 (min new_index (s.review_queue.length - 1))
    let sel :=
      if h : idx < s.review_queue.length then
        some (s.review_queue.get ⟨idx, h⟩).id
      else s.selected_image_id
    { s with selected_image_index := idx, selected_image_id := sel }
  else { s with selected_image_index := 0 }

/-- Model of `remove_from_queue(index)` (legacy positional removal). -/
def remove_from_queue (index : Nat) (s : AppState) : AppState :=
  if hidx : index < s.review_queue.length then
    let removed := s.review_queue.get ⟨index, hidx⟩
    let q := s.review_queue.eraseIdx index
    let states :=
      if index < s.image_states.length then s.image_states.eraseIdx index
      else s.image_states
    let sel0 :=
      if s.selected_image_id = some removed.id then none
      else s.selected_image_id
    let idx :=
      if s.selected_image_index ≥ q.length then max 0 (q.length - 1)
      else s.selected_image_index
    let sel :=
      if h : q ≠ [] ∧ idx < q.length then some (q.get ⟨idx, h.2⟩).id
      else sel0
    { s with review_queue := q, image_states := states,
             selected_image_index := idx, selected_image_id := sel }
  else s

/-- Model of `skip_current_image()` (`src/image_actions.py`): move the current item
to the back of the queue; only acts when the queue has more than one item
and the selected index is in range (the source would raise `IndexError`
otherwise; under the selection invariant it always is). -/
def skip_current_image (s : AppState) : AppState :=
  if s.review_queue.length > 1 then
    match s.review_queue.get? s.selected_image_index with
    | none => s
    | some cur =>
      let st :=
        if h : s.selected_image_index < s.image_states.length then
          s.image_states.get ⟨s.selected_image_index, h⟩
        else Status.ready
      let q := s.review_queue.eraseIdx s.selected_image_index ++ [cur]
      let states :=
        (if s.selected_image_index < s.image_states.length then
          s.image_states.eraseIdx s.selected_image_index
         else s.image_states) ++ [st]
      let idx :=
        if s.selected_image_index ≥ q.length then 0
        else s.selected_image_index
      { s with review_queue := q, image_states := states,
               selected_image_index := idx }
  else s

/-- The loop accumulator of `check_background_tasks`: the queue and the
generated counter being mutated, the `remaining_futures` list, the
`completed_any` flag, and the recorded `future.cancel()` attempts. -/
structure Acc where
  queue : List Item
  stats : Nat
  remaining : List FutureInfo
  completed_any : Bool
  cancels : List FutureInfo
deriving DecidableEq, Repr

/-- One iteration of the `for future_info in background_futures` loop of
`check_background_tasks` (`src/background_tasks.py:46-106`), at wall-clock
time `now`.  Faithful control flow: a missing `item_id` is skipped (and so
dropped); a running future first gets its `processing_start_time` stamped,
then times out when the elapsed processing time is strictly greater than
`TASK_TIMEOUT` (cancel, mark `timeout`, drop), otherwise falls through to
the `future.done()` test (false while running) and is retained; a done
future is settled by the outcome of `future.result(timeout=0.1)`; a queued
future is retained unchanged. -/
def processFuture (now : Nat) (acc : Acc) (fi : FutureInfo) : Acc :=
  match fi.item_id with
  | none => acc
  | some item_id =>
    if fi.fstate.isRunning then
      let fi' :=
        if fi.processing_start_time = none then
          { fi with processing_start_time := some now }
        else fi
      let start := fi'.processing_start_time.getD now
      if now - start > TASK_TIMEOUT then
        { acc with
          queue := (updateFirstById item_id { status := some .timeout } acc.queue).1
          completed_any := true
          cancels := acc.cancels ++ [fi'] }
      else
        { acc with remaining := acc.remaining ++ [fi'] }
    else
      match fi.fstate with
      | .doneOk (some x) =>
        { acc with
          queue := (updateFirstById item_id
            { image := some (some x), status := some .ready } acc.queue).1
          stats := acc.stats + 1
          completed_any := true }
      | .doneOk none =>
        { acc with
          queue := (updateFirstById item_id { status := some .failed } acc.queue).1
          completed_any := true }
      | .doneRaiseTimeout =>
        { acc with
          queue := (updateFirstById item_id { status := some .timeout } acc.queue).1
          completed_any := true }
      | .doneRaiseError =>
        { acc with
          queue := (updateFirstById item_id { status := some .failed } acc.queue).1
          completed_any := true }
      | _ => { acc with remaining := acc.remaining ++ [fi] }

/-- Result of one reconciler pass: the new session state, the returned
`completed_any` flag, and the futures on which `cancel()` was attempted. -/
structure PassResult where
  state : AppState
  changed : Bool
  cancels : List FutureInfo
deriving DecidableEq, Repr

/-- Model of `check_background_tasks()` at wall-clock time `now`: early-return
`False` when no futures are outstanding, otherwise fold the per-future
step over the outstanding list and write back queue, counter and the
`remaining_futures` list. -/
def check_background_tasks (now : Nat) (s : AppState) : PassResult :=
  if s.background_futures.isEmpty then
    { state := s, changed := false, cancels := [] }
  else
    let acc := s.background_futures.foldl (processFuture now)
      { queue := s.review_queue, stats := s.stats_generated,
        remaining := [], completed_any := false, cancels := [] }
    { state := { s with
        review_queue := acc.queue
        stats_generated := acc.stats
        background_futures := acc.remaining }
      changed := acc.completed_any
      cancels := acc.cancels }

/-- A fresh placeholder item appended by `generate_from_prompts`. -/
def mkTextItem (id : Nat) (prompt : String) : Item :=
  { id := id
    itype := .text_to_image
    image := none
    prompt := prompt
    status := .generating }

/-- The placeholder items appended by one `generate_from_prompts` call:
one per prompt, with consecutive fresh ids starting at `nid`. -/
def enqueueItems (nid : Nat) (prompts : List String) : List Item :=
  ((List.range prompts.length).zip prompts).map
    (fun p => mkTextItem (nid + p.1) p.2)

/-- Model of `generate_from_prompts(prompts)` (queue/dispatch effects): append one
placeholder item per prompt with status `'generating'` and `image = None`,
then submit one future per prompt carrying the matching fresh item id.
Fresh uuid4 ids are modelled by consecutive counter values. -/
def generate_from_prompts (prompts : List String) (s : AppState) : AppState :=
  let newItems := enqueueItems s.next_id prompts
  let newFutures : List FutureInfo := newItems.map
    (fun it => { fstate := .queued, prompt := it.prompt, item_id := some it.id })
  { s with
    review_queue := s.review_queue ++ newItems
    image_states := s.image_states ++ newItems.map (fun _ => Status.generating)
    background_futures := s.background_futures ++ newFutures
    next_id := s.next_id + prompts.length }

/-- Model of `retry_timed_out_image(item_id)` (`src/ui/thumbnail_sidebar.py`),
success path of the generator initialisation: no-op when the item is
missing or its status is not `'timeout'`; otherwise reset
`{'status': 'generating', 'image': None}` and submit one fresh future with
the same item id — except that an image-transform item with neither
`original_image` nor `source_image` is reset but gets no new future (the
source returns before submitting). -/
def retry_timed_out_image (item_id : Nat) (s : AppState) : AppState :=
  match s.review_queue.find? (fun it => it.id = item_id) with
  | none => s
  | some item =>
    if item.status ≠ .timeout then s
    else
      let s1 := { s with review_queue :=
        (updateFirstById item_id
          { status := some .generating, image := some none } s.review_queue).1 }
      match item.itype with
      | .text_to_image =>
        { s1 with background_futures := s1.background_futures ++
          [{ fstate := .queued
             prompt := "Retry: " ++ item.prompt.take 40 ++ "..."
             item_id := some item_id }] }
      | .image_to_image =>
        match item.original_image.orElse (fun _ => item.source_image) with
        | none => s1
        | some _ =>
          { s1 with background_futures := s1.background_futures ++
            [{ fstate := .queued
               prompt := "Retry transform: " ++
                 item.modification_prompt.take 40 ++ "..."
               item_id := some item_id }] }

/-- Python `text.split(sep)` for a one-character separator, on the
character list: every occurrence of the separator starts a new piece and
empty pieces are kept. -/
def splitOnChar (sep : Char) : List Char → List (List Char)
  | [] => [[]]
  | c :: cs =>
    if c = sep then [] :: splitOnChar sep cs
    else
      match splitOnChar sep cs with
      | [] => [[c]]
      | r :: rs => (c :: r) :: rs

/-- Python `s.strip()`: drop leading and trailing whitespace characters. -/
def stripChars (l : List Char) : List Char :=
  ((l.dropWhile Char.isWhitespace).reverse.dropWhile Char.isWhitespace).reverse

/-- Model of `re.sub(r'\s+', ' ', p)` on a character list: collapse every maximal
whitespace run to a single space.  The boolean argument records whether the
previous character was part of a whitespace run. -/
def collapseWsAux : Bool → List Char → List Char
  | _, [] => []
  | prevWs, c :: cs =>
    if c.isWhitespace then
      if prevWs then collapseWsAux true cs
      else ' ' :: collapseWsAux true cs
    else c :: collapseWsAux false cs

/-- Model of `parse_text_prompts(content)` (`src/utils.py`): split on `';'`, strip
each piece, keep only pieces longer than 5 characters, collapse internal
whitespace runs, strip again and keep only non-empty results. -/
def parse_text_prompts (content : String) : List String :=
  let pieces := (splitOnChar ';' content.data).map stripChars
  let pieces := pieces.filter (fun p => p.length > 5)
  ((pieces.map (fun p => stripChars (collapseWsAux false p))).filter
    (fun p => p ≠ [])).map (fun p => String.mk p)

/-- List of item ids referenced by a list of handles. -/
def refIds (fs : List FutureInfo) : List Nat :=
  fs.filterMap (fun fi => fi.item_id)

/-- Model of `find_item_by_id(item_id)` restricted to a queue list. -/
def getById (i : Nat) (q : List Item) : Option Item :=
  q.find? (fun it => it.id = i)

/-- Whether the pass at time `now` settles this handle with a terminal
outcome: a processing timeout while running, or any completed outcome.
Handles without an item id are never processed. -/
def reachesTerminal (now : Nat) (fi : FutureInfo) : Bool :=
  match fi.fstate with
  | .queued => false
  | .running =>
    match fi.processing_start_time with
    | some t0 => decide (now - t0 > TASK_TIMEOUT)
    | none => false
  | _ => true

/-- A handle is retained for the next pass when it carries an item id and
does not reach a terminal outcome. -/
def keepF (now : Nat) (fi : FutureInfo) : Bool :=
  fi.item_id.isSome && !reachesTerminal now fi

/-- The in-place stamping of `processing_start_time` on a running handle
observed for the first time. -/
def touchStart (now : Nat) (fi : FutureInfo) : FutureInfo :=
  if fi.fstate.isRunning ∧ fi.processing_start_time = none then
    { fi with processing_start_time := some now }
  else fi

/-- The handle completed successfully with a non-empty image (the branch
that increments the generated counter). -/
def succOk (fi : FutureInfo) : Bool :=
  fi.item_id.isSome &&
    match fi.fstate with
    | .doneOk (some _) => true
    | _ => false

/-- The queue update this handle causes during a pass at time `now`, if
any: the target item id together with the update dict. -/
def settleUpdate (now : Nat) (fi : FutureInfo) : Option (Nat × ItemUpdates) :=
  match fi.item_id with
  | none => none
  | some i =>
    match fi.fstate with
    | .queued => none
    | .running =>
      match fi.processing_start_time with
      | some t0 =>
        if now - t0 > TASK_TIMEOUT then some (i, { status := some .timeout })
        else none
      | none => none
    | .doneOk (some x) => some (i, { image := some (some x), status := some .ready })
    | .doneOk none => some (i, { status := some .failed })
    | .doneRaiseTimeout => some (i, { status := some .timeout })
    | .doneRaiseError => some (i, { status := some .failed })

/-- Apply a list of id-addressed updates in order. -/
def applyAll (us : List (Nat × ItemUpdates)) (q : List Item) : List Item :=
  us.foldl (fun q p => (updateFirstById p.1 p.2 q).1) q

/-- Concrete state used to witness C6: one item with id 0. -/
def w6state : AppState :=
  { init_session_state with
    review_queue :=
      [{ id := 0, itype := .text_to_image, image := none, prompt := "",
         status := .generating }] }

/-- Concrete state used to refute C7 as stated: one successfully completed
handle whose referenced item is no longer in the (empty) queue. -/
def c7state : AppState :=
  { init_session_state with
    background_futures :=
      [{ fstate := .doneOk (some 1), prompt := "", item_id := some 0 }] }

/-- Concrete running handle used in C2's witness and counterexample. -/
def w2fi : FutureInfo :=
  { fstate := .running, prompt := "", item_id := some 0,
    processing_start_time := some 0 }

/-- Concrete state with one generating item and one running handle. -/
def w2state : AppState :=
  { init_session_state with
    review_queue :=
      [{ id := 0, itype := .text_to_image, image := none, prompt := "",
         status := .generating }]
    image_states := [.generating]
    background_futures := [w2fi]
    next_id := 1 }

/-- Concrete raising handle used in C4's witness. -/
def w4fi : FutureInfo :=
  { fstate := .doneRaiseError, prompt := "", item_id := some 0 }

/-- Concrete state with one generating item and one raising handle. -/
def w4state : AppState :=
  { init_session_state with
    review_queue :=
      [{ id := 0, itype := .text_to_image, image := none, prompt := "",
         status := .generating }]
    image_states := [.generating]
    background_futures := [w4fi]
    next_id := 1 }

/-- Concrete successful handle used in C3's witness. -/
def w3fi : FutureInfo :=
  { fstate := .doneOk (some 7), prompt := "", item_id := some 0 }

/-- Concrete state with one generating item and one successful handle. -/
def w3state : AppState :=
  { init_session_state with
    review_queue :=
      [{ id := 0, itype := .text_to_image, image := none, prompt := "",
         status := .generating }]
    image_states := [.generating]
    background_futures := [w3fi]
    next_id := 1 }

/-- Concrete two-item state used in C8's witness: item 0 selected. -/
def w8state : AppState :=
  { init_session_state with
    review_queue :=
      [{ id := 0, itype := .text_to_image, image := none, prompt := "",
         status := .generating },
       { id := 1, itype := .text_to_image, image := none, prompt := "",
         status := .generating }]
    image_states := [.generating, .generating]
    selected_image_id := some 0
    next_id := 2 }

/-- The queue/selection operations the selection-range claim ranges over:
appending placeholder items, positional and id-based removal, explicit
index selection, skip-to-back, and reading the current item (which may
reset the index). -/
inductive SelOp where
  | enqueue (prompts : List String)
  | removeAt (index : Nat)
  | removeById (item_id : Nat)
  | select (new_index : Nat)
  | skip
  | getCurrent

/-- Apply one selection-trace operation. -/
def applySelOp (s : AppState) : SelOp → AppState
  | .enqueue ps => generate_from_prompts ps s
  | .removeAt i => remove_from_queue i s
  | .removeById i => (remove_item_by_id i s).1
  | .select n => update_selected_index n s
  | .skip => skip_current_image s
  | .getCurrent => (get_current_item s).2

/-- Run a selection trace from the freshly initialised session state. -/
def runSel (ops : List SelOp) : AppState :=
  ops.foldl applySelOp init_session_state

/-- Selection-range invariant: the selected index never exceeds
`max(0, length - 1)`. -/
def SelInv (s : AppState) : Prop :=
  s.selected_image_index ≤ max 0 (s.review_queue.length - 1)

/-- Concrete state with one `failed` item, used to refute C5 as stated. -/
def c5state : AppState :=
  { init_session_state with
    review_queue :=
      [{ id := 0, itype := .text_to_image, image := none, prompt := "",
         status := .failed }]
    image_states := [.failed]
    next_id := 1 }

/-- Concrete state with one `timeout` item, used in C5's witness. -/
def w5state : AppState :=
  { init_session_state with
    review_queue :=
      [{ id := 0, itype := .text_to_image, image := none, prompt := "cat",
         status := .timeout }]
    image_states := [.timeout]
    next_id := 1 }

/-- Per-item form of the §3 invariant: either the result image is absent
and the status is non-ready, or the image is present and the status is
ready. -/
def ItemInv (it : Item) : Prop :=
  (it.image = none ∧ it.status ≠ .ready) ∨
  (∃ x, it.image = some x ∧ it.status = .ready)

/-- Global state invariant threaded through the lifecycle trace: every
item satisfies `ItemInv`, queue ids are distinct and below the freshness
counter, handle-referenced ids are below the counter and pairwise
distinct, and every item referenced by an outstanding handle is
`generating` with no image. -/
def Inv (s : AppState) : Prop :=
  (∀ it ∈ s.review_queue, ItemInv it) ∧
  (s.review_queue.map (·.id)).Nodup ∧
  (∀ it ∈ s.review_queue, it.id < s.next_id) ∧
  (∀ fi ∈ s.background_futures, ∀ j, fi.item_id = some j → j < s.next_id) ∧
  (refIds s.background_futures).Nodup ∧
  (∀ fi ∈ s.background_futures, ∀ j, fi.item_id = some j →
    ∀ it ∈ s.review_queue, it.id = j →
      it.status = .generating ∧ it.image = none)

/-- Lifecycle trace operations: enqueue a batch of prompts, run one
reconciler pass at a given time, retry an item, or let the worker pool
advance the underlying futures (modelled as an arbitrary per-handle change
of the future's execution state, which is the only thing worker threads
may touch). -/
inductive Op where
  | enqueue (prompts : List String)
  | pass (now : Nat)
  | retry (item_id : Nat)
  | env (f : FutureInfo → FState)

/-- Apply one lifecycle operation. -/
def applyOp (s : AppState) : Op → AppState
  | .enqueue ps => generate_from_prompts ps s
  | .pass now => (check_background_tasks now s).state
  | .retry i => retry_timed_out_image i s
  | .env f =>
    { s with background_futures :=
        s.background_futures.map (fun fi => { fi with fstate := f fi }) }

/-- Run a lifecycle trace from the freshly initialised session state. -/
def run (ops : List Op) : AppState :=
  ops.foldl applyOp init_session_state

/-- An id-addressed update is invariant-safe on queue `q` when it either
installs an image together with the ready status, or installs no image, a
non-ready status, and targets only imageless items. -/
def UpdOk (q : List Item) (p : Nat × ItemUpdates) : Prop :=
  (∃ x, p.2.image = some (some x) ∧ p.2.status = some .ready) ∨
  (p.2.image = none ∧ (∀ st, p.2.status = some st → st ≠ .ready) ∧
    ∀ it ∈ q, it.id = p.1 → it.image = none)

theorem enqueueItems_length (nid : Nat) (ps : List String) :
    (enqueueItems nid ps).length = ps.length := by
  simp [enqueueItems]

theorem mem_enqueueItems (nid : Nat) (ps : List String) (it : Item)
    (h : it ∈ enqueueItems nid ps) :
    it.image = none ∧ it.status = .generating ∧ it.itype = .text_to_image ∧
    nid ≤ it.id ∧ it.id < nid + ps.length := by
  rcases List.mem_map.mp h with ⟨p, hp, rfl⟩
  have h1 := (List.of_mem_zip hp).1
  have h2 := List.mem_range.mp h1
  exact ⟨rfl, rfl, rfl, Nat.le_add_right _ _, Nat.add_lt_add_left h2 nid⟩

theorem enqueueItems_map_id (nid : Nat) (ps : List String) :
    (enqueueItems nid ps).map (·.id) =
      (List.range ps.length).map (fun k => nid + k) := by
  unfold enqueueItems
  rw [List.map_map]
  have hcomp : ((fun it => it.id) ∘ fun p : Nat × String =>
      mkTextItem (nid + p.1) p.2) = (fun k => nid + k) ∘ Prod.fst := rfl
  rw [hcomp, ← List.map_map,
    List.map_fst_zip _ _ (by simp)]

theorem enqueueItems_ids_nodup (nid : Nat) (ps : List String) :
    ((enqueueItems nid ps).map (·.id)).Nodup := by
  rw [enqueueItems_map_id]
  exact List.Nodup.map (fun a b h => Nat.add_left_cancel h)
    (List.nodup_range ps.length)

theorem refIds_enqueue_futures (items : List Item) :
    refIds (items.map (fun it =>
      ({ fstate := .queued, prompt := it.prompt, item_id := some it.id } :
        FutureInfo))) = items.map (·.id) := by
  induction items with
  | nil => rfl
  | cons it rest ih => simp [refIds, List.filterMap_cons] at *; exact ih

theorem applyUpdates_id (u : ItemUpdates) (it : Item) :
    (applyUpdates u it).id = it.id := rfl

theorem updateFirstById_map_id (i : Nat) (u : ItemUpdates) (q : List Item) :
    ((updateFirstById i u q).1).map (·.id) = q.map (·.id) := by
  induction q with
  | nil => rfl
  | cons it rest ih =>
    by_cases h : it.id = i <;> simp [updateFirstById, h, applyUpdates, ih]

theorem updateFirstById_length (i : Nat) (u : ItemUpdates) (q : List Item) :
    ((updateFirstById i u q).1).length = q.length := by
  have := congrArg List.length (updateFirstById_map_id i u q)
  simpa using this

theorem getById_updateFirstById_ne (i j : Nat) (u : ItemUpdates)
    (q : List Item) (hij : j ≠ i) :
    getById j (updateFirstById i u q).1 = getById j q := by
  induction q with
  | nil => rfl
  | cons it rest ih =>
    have hij' : i ≠ j := fun hc => hij hc.symm
    by_cases h : it.id = i
    · have hj : ¬ it.id = j := fun hc => hij (hc ▸ h)
      simp [updateFirstById, h, getById, List.find?, applyUpdates, hj, hij']
    · by_cases hj : it.id = j
      · simp [updateFirstById, h, getById, List.find?, hj, hij, hij']
      · simpa [updateFirstById, h, getById, List.find?, hj] using ih

theorem getById_updateFirstById_self (i : Nat) (u : ItemUpdates)
    (q : List Item) :
    getById i (updateFirstById i u q).1 = (getById i q).map (applyUpdates u) := by
  induction q with
  | nil => rfl
  | cons it rest ih =>
    by_cases h : it.id = i
    · simp [updateFirstById, h, getById, List.find?, applyUpdates]
    · simpa [updateFirstById, h, getById, List.find?] using ih

theorem updateFirstById_not_found (i : Nat) (u : ItemUpdates)
    (q : List Item) (h : ∀ it ∈ q, it.id ≠ i) :
    updateFirstById i u q = (q, false) := by
  induction q with
  | nil => rfl
  | cons it rest ih =>
    have h1 : it.id ≠ i := h it (List.mem_cons_self it rest)
    have h2 : ∀ x ∈ rest, x.id ≠ i := fun x hx => h x (List.mem_cons_of_mem it hx)
    simp [updateFirstById, h1, ih h2]

theorem mem_updateFirstById (i : Nat) (u : ItemUpdates) (q : List Item)
    (it' : Item) (h : it' ∈ (updateFirstById i u q).1) :
    it' ∈ q ∨ ∃ it, it ∈ q ∧ it.id = i ∧ it' = applyUpdates u it := by
  induction q with
  | nil => simp [updateFirstById] at h
  | cons it rest ih =>
    by_cases hid : it.id = i
    · simp only [updateFirstById, hid, if_pos rfl] at h
      rcases List.mem_cons.mp h with h1 | h1
      · exact Or.inr ⟨it, List.mem_cons_self it rest, hid, h1⟩
      · exact Or.inl (List.mem_cons_of_mem it h1)
    · simp only [updateFirstById, hid, if_neg] at h
      rcases List.mem_cons.mp h with h1 | h1
      · exact Or.inl (h1 ▸ List.mem_cons_self it rest)
      · rcases ih h1 with h2 | ⟨x, hx, hxi, hxe⟩
        · exact Or.inl (List.mem_cons_of_mem it h2)
        · exact Or.inr ⟨x, List.mem_cons_of_mem it hx, hxi, hxe⟩

theorem mem_of_getById (i : Nat) (q : List Item) (it : Item)
    (h : getById i q = some it) : it ∈ q ∧ it.id = i := by
  have hm := List.mem_of_find?_eq_some h
  have hp := List.find?_some h
  exact ⟨hm, by simpa using hp⟩

theorem getById_eq_some_of_mem (q : List Item) (it : Item)
    (hnd : (q.map (·.id)).Nodup) (hm : it ∈ q) :
    getById it.id q = some it := by
  induction q with
  | nil => simp at hm
  | cons x rest ih =>
    rcases List.mem_cons.mp hm with h1 | h1
    · subst h1
      simp [getById, List.find?]
    · by_cases hx : x.id = it.id
      · exfalso
        have hmem : it.id ∈ rest.map (·.id) := List.mem_map_of_mem _ h1
        have hnd1 := (List.nodup_cons.mp hnd).1
        exact hnd1 (by show x.id ∈ _; rw [hx]; exact hmem)
      · have := ih (List.nodup_cons.mp hnd).2 h1
        simpa [getById, List.find?, hx] using this

theorem findIdx?_eq_none_of_not_found (q : List Item) (i : Nat)
    (h : ∀ it ∈ q, it.id ≠ i) :
    q.findIdx? (fun it => it.id = i) = none :=
  List.findIdx?_eq_none_iff.mpr (fun it hit => by simpa using h it hit)

theorem processFuture_queue (now : Nat) (acc : Acc) (fi : FutureInfo) :
    (processFuture now acc fi).queue =
      (match settleUpdate now fi with
       | none => acc.queue
       | some p => (updateFirstById p.1 p.2 acc.queue).1) := by
  rcases fi with ⟨fst, pr, iid, pst⟩
  cases iid with
  | none => rfl
  | some i =>
    cases fst with
    | queued => simp [processFuture, settleUpdate, FState.isRunning]
    | running =>
      cases pst with
      | none => simp [processFuture, settleUpdate, FState.isRunning, Nat.sub_self]
      | some t0 =>
        by_cases h : now - t0 > TASK_TIMEOUT <;>
          simp [processFuture, settleUpdate, FState.isRunning, h]
    | doneOk img =>
      cases img <;> simp [processFuture, settleUpdate, FState.isRunning]
    | doneRaiseTimeout => simp [processFuture, settleUpdate, FState.isRunning]
    | doneRaiseError => simp [processFuture, settleUpdate, FState.isRunning]

theorem processFuture_remaining (now : Nat) (acc : Acc) (fi : FutureInfo) :
    (processFuture now acc fi).remaining =
      acc.remaining ++ (if keepF now fi then [touchStart now fi] else []) := by
  rcases fi with ⟨fst, pr, iid, pst⟩
  cases iid with
  | none => simp [processFuture, keepF]
  | some i =>
    cases fst with
    | queued => simp [processFuture, keepF, reachesTerminal, touchStart, FState.isRunning]
    | running =>
      cases pst with
      | none =>
        simp [processFuture, keepF, reachesTerminal, touchStart, FState.isRunning,
          Nat.sub_self]
      | some t0 =>
        by_cases h : now - t0 > TASK_TIMEOUT <;>
          simp [processFuture, keepF, reachesTerminal, touchStart, FState.isRunning, h]
    | doneOk img =>
      cases img <;>
        simp [processFuture, keepF, reachesTerminal, touchStart, FState.isRunning]
    | doneRaiseTimeout =>
      simp [processFuture, keepF, reachesTerminal, touchStart, FState.isRunning]
    | doneRaiseError =>
      simp [processFuture, keepF, reachesTerminal, touchStart, FState.isRunning]

theorem processFuture_completed (now : Nat) (acc : Acc) (fi : FutureInfo) :
    (processFuture now acc fi).completed_any =
      (acc.completed_any || (fi.item_id.isSome && reachesTerminal now fi)) := by
  rcases fi with ⟨fst, pr, iid, pst⟩
  cases iid with
  | none => simp [processFuture]
  | some i =>
    cases fst with
    | queued => simp [processFuture, reachesTerminal, FState.isRunning]
    | running =>
      cases pst with
      | none => simp [processFuture, reachesTerminal, FState.isRunning, Nat.sub_self]
      | some t0 =>
        by_cases h : now - t0 > TASK_TIMEOUT <;>
          simp [processFuture, reachesTerminal, FState.isRunning, h]
    | doneOk img =>
      cases img <;> simp [processFuture, reachesTerminal, FState.isRunning]
    | doneRaiseTimeout => simp [processFuture, reachesTerminal, FState.isRunning]
    | doneRaiseError => simp [processFuture, reachesTerminal, FState.isRunning]

theorem processFuture_cancels (now : Nat) (acc : Acc) (fi : FutureInfo) :
    (processFuture now acc fi).cancels =
      acc.cancels ++
        (if fi.item_id.isSome && fi.fstate.isRunning && reachesTerminal now fi
         then [fi] else []) := by
  rcases fi with ⟨fst, pr, iid, pst⟩
  cases iid with
  | none => simp [processFuture]
  | some i =>
    cases fst with
    | queued => simp [processFuture, reachesTerminal, FState.isRunning]
    | running =>
      cases pst with
      | none => simp [processFuture, reachesTerminal, FState.isRunning, Nat.sub_self]
      | some t0 =>
        by_cases h : now - t0 > TASK_TIMEOUT <;>
          simp [processFuture, reachesTerminal, FState.isRunning, h]
    | doneOk img =>
      cases img <;> simp [processFuture, reachesTerminal, FState.isRunning]
    | doneRaiseTimeout => simp [processFuture, reachesTerminal, FState.isRunning]
    | doneRaiseError => simp [processFuture, reachesTerminal, FState.isRunning]

theorem processFuture_stats (now : Nat) (acc : Acc) (fi : FutureInfo) :
    (processFuture now acc fi).stats =
      acc.stats + (if succOk fi then 1 else 0) := by
  rcases fi with ⟨fst, pr, iid, pst⟩
  cases iid with
  | none => simp [processFuture, succOk]
  | some i =>
    cases fst with
    | queued => simp [processFuture, succOk, FState.isRunning]
    | running =>
      cases pst with
      | none => simp [processFuture, succOk, FState.isRunning, Nat.sub_self]
      | some t0 =>
        by_cases h : now - t0 > TASK_TIMEOUT <;>
          simp [processFuture, succOk, FState.isRunning, h]
    | doneOk img =>
      cases img <;> simp [processFuture, succOk, FState.isRunning]
    | doneRaiseTimeout => simp [processFuture, succOk, FState.isRunning]
    | doneRaiseError => simp [processFuture, succOk, FState.isRunning]

theorem foldl_remaining (now : Nat) (L : List FutureInfo) (acc : Acc) :
    (L.foldl (processFuture now) acc).remaining =
      acc.remaining ++ (L.filter (keepF now)).map (touchStart now) := by
  induction L generalizing acc with
  | nil => simp [applyAll]
  | cons fi L ih =>
    rw [List.foldl_cons, ih, processFuture_remaining]
    by_cases h : keepF now fi <;> simp [List.filter_cons, h]

theorem foldl_completed (now : Nat) (L : List FutureInfo) (acc : Acc) :
    (L.foldl (processFuture now) acc).completed_any =
      (acc.completed_any ||
        L.any (fun fi => fi.item_id.isSome && reachesTerminal now fi)) := by
  induction L generalizing acc with
  | nil => simp
  | cons fi L ih =>
    rw [List.foldl_cons, ih, processFuture_completed]
    simp [List.any_cons, Bool.or_assoc]

theorem foldl_cancels (now : Nat) (L : List FutureInfo) (acc : Acc) :
    (L.foldl (processFuture now) acc).cancels =
      acc.cancels ++
        L.filter (fun fi =>
          fi.item_id.isSome && fi.fstate.isRunning && reachesTerminal now fi) := by
  induction L generalizing acc with
  | nil => simp
  | cons fi L ih =>
    rw [List.foldl_cons, ih, processFuture_cancels]
    by_cases h : (fi.item_id.isSome && fi.fstate.isRunning && reachesTerminal now fi)
      <;> simp [List.filter_cons, h]

theorem foldl_stats (now : Nat) (L : List FutureInfo) (acc : Acc) :
    (L.foldl (processFuture now) acc).stats =
      acc.stats + L.countP succOk := by
  induction L generalizing acc with
  | nil => simp
  | cons fi L ih =>
    rw [List.foldl_cons, ih, processFuture_stats]
    by_cases h : succOk fi
    · simp [List.countP_cons, h]
      omega
    · simp [List.countP_cons, h]

theorem foldl_queue (now : Nat) (L : List FutureInfo) (acc : Acc) :
    (L.foldl (processFuture now) acc).queue =
      applyAll (L.filterMap (settleUpdate now)) acc.queue := by
  induction L generalizing acc with
  | nil => rfl
  | cons fi L ih =>
    rw [List.foldl_cons, ih, processFuture_queue]
    cases h : settleUpdate now fi with
    | none => simp [List.filterMap_cons, h]
    | some p => simp [List.filterMap_cons, h, applyAll]

theorem applyAll_map_id (us : List (Nat × ItemUpdates)) (q : List Item) :
    (applyAll us q).map (·.id) = q.map (·.id) := by
  induction us generalizing q with
  | nil => rfl
  | cons p us ih =>
    show (applyAll us (updateFirstById p.1 p.2 q).1).map (·.id) = _
    rw [ih, updateFirstById_map_id]

theorem applyAll_frame (us : List (Nat × ItemUpdates)) (q : List Item)
    (i : Nat) (h : ∀ p ∈ us, p.1 ≠ i) :
    getById i (applyAll us q) = getById i q := by
  induction us generalizing q with
  | nil => rfl
  | cons p us ih =>
    show getById i (applyAll us (updateFirstById p.1 p.2 q).1) = _
    rw [ih _ (fun x hx => h x (List.mem_cons_of_mem p hx)),
      getById_updateFirstById_ne p.1 i p.2 q
        (fun hc => h p (List.mem_cons_self p us) hc.symm)]

theorem applyAll_target (A B : List (Nat × ItemUpdates)) (u : ItemUpdates)
    (i : Nat) (q : List Item)
    (hA : ∀ p ∈ A, p.1 ≠ i) (hB : ∀ p ∈ B, p.1 ≠ i) :
    getById i (applyAll (A ++ (i, u) :: B) q) =
      (getById i q).map (applyUpdates u) := by
  have hsplit : applyAll (A ++ (i, u) :: B) q =
      applyAll B (updateFirstById i u (applyAll A q)).1 := by
    simp [applyAll, List.foldl_append]
  rw [hsplit, applyAll_frame B _ i hB, getById_updateFirstById_self,
    applyAll_frame A q i hA]

theorem applyAll_singleton (p : Nat × ItemUpdates) (q : List Item) :
    applyAll [p] q = (updateFirstById p.1 p.2 q).1 := rfl

theorem settleUpdate_id (now : Nat) (fi : FutureInfo)
    (p : Nat × ItemUpdates) (h : settleUpdate now fi = some p) :
    fi.item_id = some p.1 := by
  rcases fi with ⟨fst, pr, iid, pst⟩
  cases iid with
  | none => simp [settleUpdate] at h
  | some i =>
    cases fst with
    | queued => simp [settleUpdate] at h
    | running =>
      cases pst with
      | none => simp [settleUpdate] at h
      | some t0 =>
        by_cases ht : now - t0 > TASK_TIMEOUT
        · simp [settleUpdate, ht] at h
          simp [← h]
        · simp [settleUpdate, ht] at h
    | doneOk img => cases img <;> simp [settleUpdate] at h <;> simp [← h]
    | doneRaiseTimeout => simp [settleUpdate] at h; simp [← h]
    | doneRaiseError => simp [settleUpdate] at h; simp [← h]

theorem check_background_tasks_futures (now : Nat) (s : AppState) :
    (check_background_tasks now s).state.background_futures =
      (s.background_futures.filter (keepF now)).map (touchStart now) := by
  unfold check_background_tasks
  by_cases h : s.background_futures.isEmpty
  · have : s.background_futures = [] := List.isEmpty_iff.mp h
    simp [h, this]
  · simp [h, foldl_remaining]

theorem check_background_tasks_changed (now : Nat) (s : AppState) :
    (check_background_tasks now s).changed =
      s.background_futures.any
        (fun fi => fi.item_id.isSome && reachesTerminal now fi) := by
  unfold check_background_tasks
  by_cases h : s.background_futures.isEmpty
  · have : s.background_futures = [] := List.isEmpty_iff.mp h
    simp [h, this]
  · simp [h, foldl_completed]

theorem check_background_tasks_cancels (now : Nat) (s : AppState) :
    (check_background_tasks now s).cancels =
      s.background_futures.filter (fun fi =>
        fi.item_id.isSome && fi.fstate.isRunning && reachesTerminal now fi) := by
  unfold check_background_tasks
  by_cases h : s.background_futures.isEmpty
  · have : s.background_futures = [] := List.isEmpty_iff.mp h
    simp [h, this]
  · simp [h, foldl_cancels]

theorem check_background_tasks_queue (now : Nat) (s : AppState) :
    (check_background_tasks now s).state.review_queue =
      applyAll (s.background_futures.filterMap (settleUpdate now))
        s.review_queue := by
  unfold check_background_tasks
  by_cases h : s.background_futures.isEmpty
  · have : s.background_futures = [] := List.isEmpty_iff.mp h
    simp [h, this, applyAll]
  · simp [h, foldl_queue]

theorem check_background_tasks_stats (now : Nat) (s : AppState) :
    (check_background_tasks now s).state.stats_generated =
      s.stats_generated + s.background_futures.countP succOk := by
  unfold check_background_tasks
  by_cases h : s.background_futures.isEmpty
  · have : s.background_futures = [] := List.isEmpty_iff.mp h
    simp [h, this]
  · simp [h, foldl_stats]

theorem check_background_tasks_misc (now : Nat) (s : AppState) :
    (check_background_tasks now s).state.next_id = s.next_id ∧
    (check_background_tasks now s).state.image_states = s.image_states ∧
    (check_background_tasks now s).state.selected_image_index =
      s.selected_image_index ∧
    (check_background_tasks now s).state.selected_image_id =
      s.selected_image_id := by
  unfold check_background_tasks
  by_cases h : s.background_futures.isEmpty <;> simp [h]

theorem touchStart_item_id (now : Nat) (fi : FutureInfo) :
    (touchStart now fi).item_id = fi.item_id := by
  unfold touchStart
  split <;> rfl

theorem filterMap_settle_ids (now i : Nat) (L : List FutureInfo)
    (h : ∀ g ∈ L, g.item_id ≠ some i) :
    ∀ p ∈ L.filterMap (settleUpdate now), p.1 ≠ i := by
  intro p hp hc
  rcases List.mem_filterMap.mp hp with ⟨g, hg, hs⟩
  exact h g hg (by rw [settleUpdate_id now g p hs, hc])

/-- C9: `parse_text_prompts` splits on semicolons, drops empty and
sub-6-character entries and collapses whitespace runs; on the spec's own
example `"A cat; ; B dog ; short"` every entry has at most 5 characters
after stripping, so the function returns `[]` (not `["A cat", "B dog"]`);
a variant with entries longer than 5 characters shows the stripping,
collapsing and dropping behaviour. -/
theorem c9_parse_prompts :
    parse_text_prompts "A cat; ; B dog ; short" = [] ∧
    parse_text_prompts "A  kitten; ; B  doggo  ; short" =
      ["A kitten", "B doggo"] := by
  constructor <;> decide

/-- C9 counterexample: the claimed value `["A cat", "B dog"]` is not what
the code computes on `"A cat; ; B dog ; short"`, because the length filter
`len(prompt) > 5` drops the 5-character entries `"A cat"` and `"B dog"`. -/
theorem c9_counterexample :
    parse_text_prompts "A cat; ; B dog ; short" ≠ ["A cat", "B dog"] := by
  decide

/-- C6: `update_item_by_id` and `remove_item_by_id` on an id not present
in the queue return `false` and leave the whole session state (queue,
parallel state list, selection) unchanged. -/
theorem c6_absent_id_noop (s : AppState) (i : Nat) (u : ItemUpdates)
    (h : ∀ it ∈ s.review_queue, it.id ≠ i) :
    update_item_by_id i u s = (s, false) ∧
    remove_item_by_id i s = (s, false) := by
  constructor
  · unfold update_item_by_id
    rw [updateFirstById_not_found i u s.review_queue h]
  · unfold remove_item_by_id
    rw [findIdx?_eq_none_of_not_found s.review_queue i h]

/-- C6 witness: the hypotheses of `c6_absent_id_noop` hold at a concrete
state and absent id, and the conclusion follows by the theorem. -/
theorem c6_absent_id_noop_witness :
    (∀ it ∈ w6state.review_queue, it.id ≠ 5) ∧
    (update_item_by_id 5 {} w6state = (w6state, false) ∧
     remove_item_by_id 5 w6state = (w6state, false)) :=
  ⟨by decide, c6_absent_id_noop w6state 5 {} (by decide)⟩

/-- C7 (amended): a reconciler pass returns `true` iff some handle that
carries an item id reaches a terminal outcome during the pass (processing
timeout, success, backend error, or retrieval timeout) — whether or not
the referenced item still exists — and the surviving outstanding set is
exactly the non-terminal handles that carry an item id, with
`processing_start_time` stamped on newly observed running handles. -/
theorem c7_pass_characterization (now : Nat) (s : AppState) :
    (check_background_tasks now s).changed =
      s.background_futures.any
        (fun fi => fi.item_id.isSome && reachesTerminal now fi) ∧
    (check_background_tasks now s).state.background_futures =
      (s.background_futures.filter (keepF now)).map (touchStart now) :=
  ⟨check_background_tasks_changed now s, check_background_tasks_futures now s⟩

/-- C7 counterexample: the pass returns `true` although no item changed
state — the queue is empty before and after the pass, so "returns true iff
some item changed state" fails in the only-if direction. -/
theorem c7_counterexample :
    (check_background_tasks 0 c7state).changed = true ∧
    c7state.review_queue = [] ∧
    (check_background_tasks 0 c7state).state.review_queue = [] := by
  decide

/-- C2 (amended): for a handle observed running with its timeout clock
started and elapsed processing time strictly greater than `TASK_TIMEOUT`
(the source tests `elapsed_time > TASK_TIMEOUT`), one reconciler pass
attempts `cancel()` on the handle, sets the referenced item's status to
`timeout`, and drops the handle from the outstanding set; in particular a
pass at `t0 + 91` on a handle that started running at `t0` behaves this
way. -/
theorem c2_strict_timeout (now t0 i : Nat) (s : AppState)
    (L1 L2 : List FutureInfo) (fi : FutureInfo)
    (hsplit : s.background_futures = L1 ++ fi :: L2)
    (hrun : fi.fstate = .running)
    (hstart : fi.processing_start_time = some t0)
    (hid : fi.item_id = some i)
    (helapsed : now - t0 > TASK_TIMEOUT)
    (hL1 : ∀ g ∈ L1, g.item_id ≠ some i)
    (hL2 : ∀ g ∈ L2, g.item_id ≠ some i) :
    fi ∈ (check_background_tasks now s).cancels ∧
    (∀ it, getById i s.review_queue = some it →
      getById i (check_background_tasks now s).state.review_queue =
        some { it with status := .timeout }) ∧
    (∀ g ∈ (check_background_tasks now s).state.background_futures,
      g.item_id ≠ some i) := by
  have hterm : reachesTerminal now fi = true := by
    simp [reachesTerminal, hrun, hstart, helapsed]
  have hsettle : settleUpdate now fi =
      some (i, ({ status := some .timeout } : ItemUpdates)) := by
    simp [settleUpdate, hid, hrun, hstart, helapsed]
  refine ⟨?_, ?_, ?_⟩
  · rw [check_background_tasks_cancels, hsplit]
    apply List.mem_filter.mpr
    refine ⟨List.mem_append_right _ (List.mem_cons_self _ _), ?_⟩
    simp [hid, hrun, FState.isRunning, hterm]
  · intro it hit
    have hfm : List.filterMap (settleUpdate now) (fi :: L2) =
        (i, ({ status := some .timeout } : ItemUpdates)) ::
          List.filterMap (settleUpdate now) L2 := by
      rw [List.filterMap_cons, hsettle]
    rw [check_background_tasks_queue, hsplit, List.filterMap_append, hfm,
      applyAll_target _ _ _ i s.review_queue
        (filterMap_settle_ids now i L1 hL1)
        (filterMap_settle_ids now i L2 hL2), hit]
    rfl
  · intro g hg hc
    rw [check_background_tasks_futures] at hg
    rcases List.mem_map.mp hg with ⟨g0, hg0, rfl⟩
    have hgid : g0.item_id = some i := by
      rw [← touchStart_item_id now g0]; exact hc
    have hg0mem := List.mem_filter.mp hg0
    rw [hsplit] at hg0mem
    rcases List.mem_append.mp hg0mem.1 with h1 | h1
    · exact hL1 g0 h1 hgid
    · rcases List.mem_cons.mp h1 with rfl | h2
      · have hkeep : keepF now g0 = true := hg0mem.2
        simp [keepF, hid, hterm] at hkeep
      · exact hL2 g0 h2 hgid

/-- C2 witness: `c2_strict_timeout` applied at the concrete scenario of the
claim — the handle started running at `t0 = 0` and the pass runs at
`now = 91`. -/
theorem c2_strict_timeout_witness :
    ((91 : Nat) - 0 > TASK_TIMEOUT) ∧
    (w2fi ∈ (check_background_tasks 91 w2state).cancels ∧
     (∀ it, getById 0 w2state.review_queue = some it →
       getById 0 (check_background_tasks 91 w2state).state.review_queue =
         some { it with status := .timeout }) ∧
     (∀ g ∈ (check_background_tasks 91 w2state).state.background_futures,
       g.item_id ≠ some 0)) :=
  ⟨by decide,
   c2_strict_timeout 91 0 0 w2state [] [] w2fi rfl rfl rfl rfl (by decide)
     (by simp) (by simp)⟩

/-- C2 counterexample: at elapsed time exactly `TASK_TIMEOUT` (90s, which
satisfies the claim's `elapsed ≥ TASK_TIMEOUT`) the code does not time the
task out: the source's test is strict (`elapsed_time > TASK_TIMEOUT`), so
no cancel is attempted, the item stays `generating`, and the handle is
retained. -/
theorem c2_counterexample :
    ((90 : Nat) - 0 ≥ TASK_TIMEOUT) ∧
    (check_background_tasks 90 w2state).cancels = [] ∧
    (check_background_tasks 90 w2state).state.review_queue.map
      (fun it => it.status) = [.generating] ∧
    (check_background_tasks 90 w2state).state.background_futures ≠ [] := by
  decide

/-- C4: for a handle whose underlying call raised an exception (surfaced
by `future.result`), one reconciler pass sets the referenced item's status
to `failed` and drops the handle from the outstanding set.  The reconciler
is a total function of the embedded state, reflecting that backend
failures are converted into item status rather than propagated. -/
theorem c4_error_failed (now i : Nat) (s : AppState)
    (L1 L2 : List FutureInfo) (fi : FutureInfo)
    (hsplit : s.background_futures = L1 ++ fi :: L2)
    (herr : fi.fstate = .doneRaiseError)
    (hid : fi.item_id = some i)
    (hL1 : ∀ g ∈ L1, g.item_id ≠ some i)
    (hL2 : ∀ g ∈ L2, g.item_id ≠ some i) :
    (∀ it, getById i s.review_queue = some it →
      getById i (check_background_tasks now s).state.review_queue =
        some { it with status := .failed }) ∧
    (∀ g ∈ (check_background_tasks now s).state.background_futures,
      g.item_id ≠ some i) := by
  have hterm : reachesTerminal now fi = true := by
    simp [reachesTerminal, herr]
  have hsettle : settleUpdate now fi =
      some (i, ({ status := some .failed } : ItemUpdates)) := by
    simp [settleUpdate, hid, herr]
  refine ⟨?_, ?_⟩
  · intro it hit
    have hfm : List.filterMap (settleUpdate now) (fi :: L2) =
        (i, ({ status := some .failed } : ItemUpdates)) ::
          List.filterMap (settleUpdate now) L2 := by
      rw [List.filterMap_cons, hsettle]
    rw [check_background_tasks_queue, hsplit, List.filterMap_append, hfm,
      applyAll_target _ _ _ i s.review_queue
        (filterMap_settle_ids now i L1 hL1)
        (filterMap_settle_ids now i L2 hL2), hit]
    rfl
  · intro g hg hc
    rw [check_background_tasks_futures] at hg
    rcases List.mem_map.mp hg with ⟨g0, hg0, rfl⟩
    have hgid : g0.item_id = some i := by
      rw [← touchStart_item_id now g0]; exact hc
    have hg0mem := List.mem_filter.mp hg0
    rw [hsplit] at hg0mem
    rcases List.mem_append.mp hg0mem.1 with h1 | h1
    · exact hL1 g0 h1 hgid
    · rcases List.mem_cons.mp h1 with rfl | h2
      · have hkeep : keepF now g0 = true := hg0mem.2
        simp [keepF, hid, hterm] at hkeep
      · exact hL2 g0 h2 hgid

/-- C4 witness: `c4_error_failed` applied at a concrete raising handle. -/
theorem c4_error_failed_witness :
    w4state.background_futures = [] ++ w4fi :: [] ∧
    ((∀ it, getById 0 w4state.review_queue = some it →
       getById 0 (check_background_tasks 7 w4state).state.review_queue =
         some { it with status := .failed }) ∧
     (∀ g ∈ (check_background_tasks 7 w4state).state.background_futures,
       g.item_id ≠ some 0)) :=
  ⟨rfl,
   c4_error_failed 7 0 w4state [] [] w4fi rfl rfl rfl (by simp) (by simp)⟩

/-- C3: for a single outstanding handle whose future completed without
raising, one reconciler pass drops the handle and: on a non-empty image,
stores the image on the referenced item, marks it `ready`, and increments
the generated counter by exactly 1; on an empty (`None`) result it marks
the item `failed` — never `ready` — and leaves the counter unchanged. -/
theorem c3_done_success (now i : Nat) (s : AppState) (fi : FutureInfo)
    (img : Option Nat)
    (hfut : s.background_futures = [fi])
    (hdone : fi.fstate = .doneOk img)
    (hid : fi.item_id = some i) :
    (check_background_tasks now s).state.background_futures = [] ∧
    (∀ x, img = some x →
      (∀ it, getById i s.review_queue = some it →
        getById i (check_background_tasks now s).state.review_queue =
          some { it with image := some x, status := .ready }) ∧
      (check_background_tasks now s).state.stats_generated =
        s.stats_generated + 1) ∧
    (img = none →
      (∀ it, getById i s.review_queue = some it →
        getById i (check_background_tasks now s).state.review_queue =
          some { it with status := .failed }) ∧
      (check_background_tasks now s).state.stats_generated =
        s.stats_generated) := by
  have hterm : reachesTerminal now fi = true := by
    cases img <;> simp [reachesTerminal, hdone]
  refine ⟨?_, ?_, ?_⟩
  · rw [check_background_tasks_futures, hfut]
    simp [List.filter_cons, keepF, hterm]
  · intro x hx
    subst hx
    have hsettle : settleUpdate now fi =
        some (i, ({ status := some .ready, image := some (some x) } :
          ItemUpdates)) := by
      simp [settleUpdate, hid, hdone]
    constructor
    · intro it hit
      have hfm : List.filterMap (settleUpdate now) [fi] =
          [(i, ({ status := some .ready, image := some (some x) } :
            ItemUpdates))] := by
        rw [List.filterMap_cons, hsettle]; rfl
      rw [check_background_tasks_queue, hfut, hfm, applyAll_singleton,
        getById_updateFirstById_self, hit]
      rfl
    · rw [check_background_tasks_stats, hfut]
      simp [List.countP_cons, succOk, hid, hdone]
  · intro hx
    subst hx
    have hsettle : settleUpdate now fi =
        some (i, ({ status := some .failed } : ItemUpdates)) := by
      simp [settleUpdate, hid, hdone]
    constructor
    · intro it hit
      have hfm : List.filterMap (settleUpdate now) [fi] =
          [(i, ({ status := some .failed } : ItemUpdates))] := by
        rw [List.filterMap_cons, hsettle]; rfl
      rw [check_background_tasks_queue, hfut, hfm, applyAll_singleton,
        getById_updateFirstById_self, hit]
      rfl
    · rw [check_background_tasks_stats, hfut]
      simp [List.countP_cons, succOk, hid, hdone]

/-- C3 witness: `c3_done_success` applied at a concrete handle completing
with non-empty image `7`. -/
theorem c3_done_success_witness :
    w3state.background_futures = [w3fi] ∧
    ((check_background_tasks 6 w3state).state.background_futures = [] ∧
     (∀ x, (some 7 : Option Nat) = some x →
       (∀ it, getById 0 w3state.review_queue = some it →
         getById 0 (check_background_tasks 6 w3state).state.review_queue =
           some { it with image := some x, status := .ready }) ∧
       (check_background_tasks 6 w3state).state.stats_generated =
         w3state.stats_generated + 1) ∧
     ((some 7 : Option Nat) = none →
       (∀ it, getById 0 w3state.review_queue = some it →
         getById 0 (check_background_tasks 6 w3state).state.review_queue =
           some { it with status := .failed }) ∧
       (check_background_tasks 6 w3state).state.stats_generated =
         w3state.stats_generated)) :=
  ⟨rfl, c3_done_success 6 0 w3state w3fi (some 7) rfl rfl rfl⟩

theorem findIdx_get_of_mem (q : List Item) (X : Item)
    (hnd : (q.map (·.id)).Nodup) (hm : X ∈ q) :
    ∃ k, q.findIdx? (fun it => it.id = X.id) = some k ∧ q.get? k = some X := by
  induction q with
  | nil => simp at hm
  | cons x rest ih =>
    by_cases hx : x.id = X.id
    · have hXx : X = x := by
        rcases List.mem_cons.mp hm with h | h
        · exact h
        · exfalso
          have hmem : X.id ∈ rest.map (·.id) := List.mem_map_of_mem _ h
          exact (List.nodup_cons.mp hnd).1 (by show x.id ∈ _; rw [hx]; exact hmem)
      exact ⟨0, by simp [List.findIdx?_cons, hx], by simp [hXx]⟩
    · have hXr : X ∈ rest := by
        rcases List.mem_cons.mp hm with h | h
        · exact absurd (by rw [h]) hx
        · exact h
      obtain ⟨k, hk1, hk2⟩ := ih (List.nodup_cons.mp hnd).2 hXr
      refine ⟨k + 1, ?_, by simpa using hk2⟩
      rw [List.findIdx?_cons]
      simp only [hx, decide_eq_true_eq, if_neg hx]
      rw [List.findIdx?_succ, hk1]
      rfl

theorem mem_eraseIdx_of_ne (q : List Item) (X Y : Item) (j : Nat)
    (hm : X ∈ q) (hj : q.get? j = some Y) (hne : X ≠ Y) :
    X ∈ q.eraseIdx j := by
  induction q generalizing j with
  | nil => simp at hm
  | cons x rest ih =>
    cases j with
    | zero =>
      have hxY : x = Y := by simpa using hj
      rcases List.mem_cons.mp hm with h | h
      · exact absurd (h.trans hxY) hne
      · simpa [List.eraseIdx] using h
    | succ j =>
      rcases List.mem_cons.mp hm with h | h
      · simp [List.eraseIdx, h]
      · have := ih j h (by simpa using hj)
        simp [List.eraseIdx, this]

theorem nodup_ids_eraseIdx (q : List Item) (j : Nat)
    (hnd : (q.map (·.id)).Nodup) : ((q.eraseIdx j).map (·.id)).Nodup :=
  hnd.sublist ((q.eraseIdx_sublist j).map _)

/-- C8: with distinct ids, selecting item `X` and removing a different
item `Y` leaves the selection on `X`: after the removal and an index
resynchronisation, the selected id is still `X.id` and the item found at
the recomputed selected index is `X` itself (its possibly shifted new
position). -/
theorem c8_selection_stable (s : AppState) (X Y : Item)
    (hnd : (s.review_queue.map (·.id)).Nodup)
    (hX : X ∈ s.review_queue) (hY : Y ∈ s.review_queue)
    (hne : X.id ≠ Y.id)
    (hsel : s.selected_image_id = some X.id) :
    (sync_selected_index (remove_item_by_id Y.id s).1).selected_image_id =
      some X.id ∧
    (sync_selected_index
        (remove_item_by_id Y.id s).1).review_queue.get?
      (sync_selected_index
        (remove_item_by_id Y.id s).1).selected_image_index = some X := by
  obtain ⟨j, hj, hjget⟩ := findIdx_get_of_mem s.review_queue Y hnd hY
  have hselne : ¬ s.selected_image_id = some Y.id := by
    rw [hsel]; simpa using hne
  have h1 : (remove_item_by_id Y.id s).1.review_queue =
      s.review_queue.eraseIdx j := by
    simp [remove_item_by_id, hj]
  have h2 : (remove_item_by_id Y.id s).1.selected_image_id =
      s.selected_image_id := by
    simp [remove_item_by_id, hj, hselne]
  have hXne : X ≠ Y := fun hc => hne (by rw [hc])
  have hXq' : X ∈ (remove_item_by_id Y.id s).1.review_queue := by
    rw [h1]
    exact mem_eraseIdx_of_ne s.review_queue X Y j hX hjget hXne
  have hnd' : (((remove_item_by_id Y.id s).1.review_queue).map (·.id)).Nodup := by
    rw [h1]
    exact nodup_ids_eraseIdx s.review_queue j hnd
  obtain ⟨k, hk, hkget⟩ :=
    findIdx_get_of_mem (remove_item_by_id Y.id s).1.review_queue X hnd' hXq'
  have hq'ne : (remove_item_by_id Y.id s).1.review_queue ≠ [] :=
    List.ne_nil_of_mem hXq'
  have hsync : sync_selected_index (remove_item_by_id Y.id s).1 =
      { (remove_item_by_id Y.id s).1 with selected_image_index := k } := by
    unfold sync_selected_index
    rw [h2, hsel]
    simp only [dif_neg hq'ne, hk]
    rw [h2, hsel]
  rw [hsync]
  exact ⟨by simpa using h2.trans hsel, by simpa using hkget⟩

/-- C8 witness: `c8_selection_stable` applied at the concrete two-item
state, removing item 1 while item 0 is selected. -/
theorem c8_selection_stable_witness :
    (w8state.review_queue.map (·.id)).Nodup ∧
    ((sync_selected_index
        (remove_item_by_id 1 w8state).1).selected_image_id = some 0 ∧
     (sync_selected_index
        (remove_item_by_id 1 w8state).1).review_queue.get?
       (sync_selected_index
        (remove_item_by_id 1 w8state).1).selected_image_index =
       some { id := 0, itype := .text_to_image, image := none, prompt := "",
              status := .generating }) := by
  refine ⟨by decide, ?_⟩
  have := c8_selection_stable w8state
    { id := 0, itype := .text_to_image, image := none, prompt := "",
      status := .generating }
    { id := 1, itype := .text_to_image, image := none, prompt := "",
      status := .generating }
    (by decide) (by decide) (by decide) (by decide) (by decide)
  simpa using this

theorem selInv_step (s : AppState) (op : SelOp) (h : SelInv s) :
    SelInv (applySelOp s op) := by
  cases op with
  | enqueue ps =>
    simp only [SelInv, applySelOp, generate_from_prompts, List.length_append,
      enqueueItems_length] at *
    omega
  | removeAt i =>
    simp only [SelInv, applySelOp, remove_from_queue] at *
    split
    · simp only
      split <;> omega
    · exact h
  | removeById i =>
    simp only [SelInv, applySelOp, remove_item_by_id] at *
    cases hf : s.review_queue.findIdx? (fun it => it.id = i) with
    | none => exact h
    | some j =>
      simp only
      split <;> omega
  | select n =>
    simp only [SelInv, applySelOp, update_selected_index] at *
    split
    · simp only
      omega
    · simp only
      omega
  | skip =>
    simp only [SelInv, applySelOp, skip_current_image] at *
    split
    · cases hg : s.review_queue.get? s.selected_image_index with
      | none => simpa using h
      | some cur =>
        have hlt : s.selected_image_index < s.review_queue.length :=
          List.get?_eq_some.mp hg |>.1
        simp only [List.length_append, List.length_eraseIdx, hlt, if_pos hlt,
          List.length_singleton]
        split_ifs <;> omega
    · exact h
  | getCurrent =>
    simp only [SelInv, applySelOp, get_current_item] at *
    split
    · exact h
    · simp only
      split <;> omega

theorem selInv_foldl (ops : List SelOp) (s : AppState) (h : SelInv s) :
    SelInv (ops.foldl applySelOp s) := by
  induction ops generalizing s with
  | nil => exact h
  | cons op ops ih => exact ih _ (selInv_step s op h)

theorem get_current_item_isSome (s : AppState) (h : s.review_queue ≠ []) :
    ∃ it, (get_current_item s).1 = some it := by
  unfold get_current_item
  rw [if_neg h]
  have hlen : 0 < s.review_queue.length := List.length_pos.mpr h
  by_cases hge : s.selected_image_index ≥ s.review_queue.length
  · simp only [if_pos hge]
    exact ⟨_, List.get?_eq_get hlen⟩
  · simp only [if_neg hge]
    exact ⟨_, List.get?_eq_get (Nat.lt_of_not_le hge)⟩

/-- C10: after initialisation and any sequence of the queue/selection
operations (appending placeholders, positional removal, removal by id,
index selection, skip-to-back, reading the current item), the selected
index satisfies `0 ≤ index ≤ max(0, length - 1)`; in particular
`get_current_item` on a non-empty queue always returns an item (never
indexes out of range). -/
theorem c10_selection_in_range (ops : List SelOp) :
    (runSel ops).selected_image_index ≤
      max 0 ((runSel ops).review_queue.length - 1) ∧
    ((runSel ops).review_queue ≠ [] →
      ∃ it, (get_current_item (runSel ops)).1 = some it) :=
  ⟨selInv_foldl ops init_session_state (by simp [SelInv, init_session_state]),
   fun h => get_current_item_isSome (runSel ops) h⟩

/-- C10 witness: the in-range bound and current-item totality evaluated on
a concrete trace that appends two items, removes one by id and skips. -/
theorem c10_selection_in_range_witness :
    (runSel [SelOp.enqueue ["first prompt", "second prompt"],
             SelOp.removeById 0, SelOp.skip]).selected_image_index ≤
      max 0 ((runSel [SelOp.enqueue ["first prompt", "second prompt"],
             SelOp.removeById 0, SelOp.skip]).review_queue.length - 1) ∧
    ((runSel [SelOp.enqueue ["first prompt", "second prompt"],
             SelOp.removeById 0, SelOp.skip]).review_queue ≠ [] →
      ∃ it, (get_current_item (runSel [SelOp.enqueue
        ["first prompt", "second prompt"], SelOp.removeById 0,
        SelOp.skip])).1 = some it) :=
  c10_selection_in_range _

/-- C5 (amended): retry acts only on items whose status is `timeout`
(items in `failed` or `cancelled` status are left completely untouched).
On a `timeout` item it resets the status to `generating` and the result
image to absent in place — the queue's id sequence, and hence the item's
position, is unchanged — and appends exactly one fresh outstanding handle
carrying the same item id, except for an image-transform item without any
source image, which is reset but gets no new handle. -/
theorem c5_retry (s : AppState) (i : Nat) (it : Item)
    (hfind : getById i s.review_queue = some it) :
    (it.status ≠ .timeout → retry_timed_out_image i s = s) ∧
    (it.status = .timeout →
      (retry_timed_out_image i s).review_queue.map (·.id) =
        s.review_queue.map (·.id) ∧
      getById i (retry_timed_out_image i s).review_queue =
        some { it with status := .generating, image := none } ∧
      ((it.itype = .text_to_image ∨
        (it.original_image.orElse (fun _ => it.source_image)).isSome) →
        ∃ fi, (retry_timed_out_image i s).background_futures =
          s.background_futures ++ [fi] ∧ fi.item_id = some i) ∧
      ((it.itype = .image_to_image ∧
        it.original_image.orElse (fun _ => it.source_image) = none) →
        (retry_timed_out_image i s).background_futures =
          s.background_futures)) := by
  have hfind' : s.review_queue.find? (fun x => x.id = i) = some it := hfind
  constructor
  · intro hstat
    unfold retry_timed_out_image
    rw [hfind']
    dsimp only
    rw [if_pos hstat]
  · intro hstat
    have hcond : ¬ (it.status ≠ Status.timeout) := by simp [hstat]
    have hq : getById i
        (updateFirstById i
          { status := some .generating, image := some none }
          s.review_queue).1 =
        some { it with status := .generating, image := none } := by
      rw [getById_updateFirstById_self, hfind]
      rfl
    cases hty : it.itype with
    | text_to_image =>
      rw [hty] at hq
      have hres : retry_timed_out_image i s =
          { s with
            review_queue := (updateFirstById i
              { status := some .generating, image := some none }
              s.review_queue).1
            background_futures := s.background_futures ++
              [{ fstate := .queued
                 prompt := "Retry: " ++ it.prompt.take 40 ++ "..."
                 item_id := some i }] } := by
        unfold retry_timed_out_image
        rw [hfind']
        dsimp only
        rw [if_neg hcond, hty]
      rw [hres]
      refine ⟨updateFirstById_map_id _ _ _, hq, fun _ => ⟨_, rfl, rfl⟩, ?_⟩
      rintro ⟨hc, -⟩
      exact ItemType.noConfusion hc
    | image_to_image =>
      rw [hty] at hq
      cases hsrc : it.original_image.orElse (fun _ => it.source_image) with
      | none =>
        have hres : retry_timed_out_image i s =
            { s with
              review_queue := (updateFirstById i
                { status := some .generating, image := some none }
                s.review_queue).1 } := by
          unfold retry_timed_out_image
          rw [hfind']
          dsimp only
          rw [if_neg hcond, hty, hsrc]
        rw [hres]
        refine ⟨updateFirstById_map_id _ _ _, hq, ?_, fun _ => rfl⟩
        rintro (hc | hc)
        · exact ItemType.noConfusion hc
        · simp at hc
      | some src =>
        have hres : retry_timed_out_image i s =
            { s with
              review_queue := (updateFirstById i
                { status := some .generating, image := some none }
                s.review_queue).1
              background_futures := s.background_futures ++
                [{ fstate := .queued
                   prompt := "Retry transform: " ++
                     it.modification_prompt.take 40 ++ "..."
                   item_id := some i }] } := by
          unfold retry_timed_out_image
          rw [hfind']
          dsimp only
          rw [if_neg hcond, hty, hsrc]
        rw [hres]
        refine ⟨updateFirstById_map_id _ _ _, hq, fun _ => ⟨_, rfl, rfl⟩, ?_⟩
        rintro ⟨-, hc⟩
        exact Option.noConfusion hc

/-- C5 counterexample: on an item whose status is `failed`, retry is a
complete no-op — the status is not reset to `generating` and no new handle
is submitted — because the source returns early unless the status is
exactly `'timeout'`. -/
theorem c5_counterexample :
    c5state.review_queue.map (fun it => it.status) = [Status.failed] ∧
    retry_timed_out_image 0 c5state = c5state := by
  decide

/-- C5 witness: `c5_retry` applied at a concrete `timeout` item. -/
theorem c5_retry_witness :
    getById 0 w5state.review_queue =
      some { id := 0, itype := .text_to_image, image := none, prompt := "cat",
             status := .timeout } ∧
    ((({ id := 0, itype := .text_to_image, image := none, prompt := "cat",
         status := .timeout } : Item).status ≠ .timeout →
        retry_timed_out_image 0 w5state = w5state) ∧
     (({ id := 0, itype := .text_to_image, image := none, prompt := "cat",
         status := .timeout } : Item).status = .timeout →
       (retry_timed_out_image 0 w5state).review_queue.map (·.id) =
         w5state.review_queue.map (·.id) ∧
       getById 0 (retry_timed_out_image 0 w5state).review_queue =
         some { id := 0, itype := .text_to_image, image := none,
                prompt := "cat", status := .generating } ∧
       ((({ id := 0, itype := .text_to_image, image := none, prompt := "cat",
            status := .timeout } : Item).itype = .text_to_image ∨
         (Option.orElse (none : Option Nat) (fun _ => none)).isSome) →
         ∃ fi, (retry_timed_out_image 0 w5state).background_futures =
           w5state.background_futures ++ [fi] ∧ fi.item_id = some 0) ∧
       ((({ id := 0, itype := .text_to_image, image := none, prompt := "cat",
            status := .timeout } : Item).itype = .image_to_image ∧
         Option.orElse (none : Option Nat) (fun _ => none) = none) →
         (retry_timed_out_image 0 w5state).background_futures =
           w5state.background_futures))) :=
  ⟨by decide,
   c5_retry w5state 0
     { id := 0, itype := .text_to_image, image := none, prompt := "cat",
       status := .timeout } (by decide)⟩

theorem settle_none_of_keep (now : Nat) (fi : FutureInfo)
    (h : keepF now fi = true) : settleUpdate now fi = none := by
  rcases fi with ⟨fst, pr, iid, pst⟩
  cases iid with
  | none => simp [keepF] at h
  | some i =>
    cases fst with
    | queued => rfl
    | running =>
      cases pst with
      | none => rfl
      | some t0 =>
        simp only [keepF, reachesTerminal, Option.isSome_some,
          Bool.true_and, Bool.not_eq_true', decide_eq_false_iff_not] at h
        simp [settleUpdate, h]
    | doneOk img => cases img <;> simp [keepF, reachesTerminal] at h
    | doneRaiseTimeout => simp [keepF, reachesTerminal] at h
    | doneRaiseError => simp [keepF, reachesTerminal] at h

theorem mem_refIds (fs : List FutureInfo) (fi : FutureInfo) (j : Nat)
    (hm : fi ∈ fs) (hid : fi.item_id = some j) : j ∈ refIds fs :=
  List.mem_filterMap.mpr ⟨fi, hm, hid⟩

theorem refIds_append (a b : List FutureInfo) :
    refIds (a ++ b) = refIds a ++ refIds b := by
  simp [refIds, List.filterMap_append]

theorem refIds_cons_nodup (fi : FutureInfo) (fs : List FutureInfo)
    (hnd : (refIds (fi :: fs)).Nodup) : (refIds fs).Nodup := by
  unfold refIds at *
  rw [List.filterMap_cons] at hnd
  cases hiid : fi.item_id with
  | none => rw [hiid] at hnd; exact hnd
  | some a => rw [hiid] at hnd; exact (List.nodup_cons.mp hnd).2

theorem refIds_cons_not_mem (fi : FutureInfo) (fs : List FutureInfo) (a : Nat)
    (hnd : (refIds (fi :: fs)).Nodup) (hiid : fi.item_id = some a) :
    a ∉ refIds fs := by
  unfold refIds at *
  rw [List.filterMap_cons, hiid] at hnd
  exact (List.nodup_cons.mp hnd).1

theorem settle_id_mem_refIds (now : Nat) (fs : List FutureInfo)
    (p : Nat × ItemUpdates) (hp : p ∈ fs.filterMap (settleUpdate now)) :
    p.1 ∈ refIds fs := by
  rcases List.mem_filterMap.mp hp with ⟨fi0, h0, hs⟩
  exact mem_refIds fs fi0 p.1 h0 (settleUpdate_id now fi0 p hs)

theorem no_settle_id_of_kept (now j : Nat) (fs : List FutureInfo)
    (hnd : (refIds fs).Nodup) (g : FutureInfo) (hg : g ∈ fs)
    (hkeep : keepF now g = true) (hgid : g.item_id = some j) :
    ∀ p ∈ fs.filterMap (settleUpdate now), p.1 ≠ j := by
  induction fs with
  | nil => simp
  | cons fi fs ih =>
    intro p hp hpj
    rcases List.mem_cons.mp hg with hgfi | hgmem
    · subst hgfi
      have hsetv := settle_none_of_keep now g hkeep
      simp only [List.filterMap_cons, hsetv] at hp
      have hmem := settle_id_mem_refIds now fs p hp
      rw [hpj] at hmem
      exact refIds_cons_not_mem g fs j hnd hgid hmem
    · cases hs : settleUpdate now fi with
      | none =>
        simp only [List.filterMap_cons, hs] at hp
        exact ih (refIds_cons_nodup fi fs hnd) hgmem p hp hpj
      | some q =>
        simp only [List.filterMap_cons, hs] at hp
        rcases List.mem_cons.mp hp with hpq | hp'
        · have hfi := settleUpdate_id now fi q hs
          have hq1 : q.1 = j := by rw [← hpq]; exact hpj
          have hjm : j ∈ refIds fs := mem_refIds fs g j hgmem hgid
          refine absurd hjm (refIds_cons_not_mem fi fs j hnd ?_)
          rw [hfi, hq1]
        · exact ih (refIds_cons_nodup fi fs hnd) hgmem p hp' hpj

theorem settle_ids_sublist (now : Nat) (fs : List FutureInfo) :
    ((fs.filterMap (settleUpdate now)).map Prod.fst).Sublist (refIds fs) := by
  induction fs with
  | nil => simp
  | cons fi fs ih =>
    cases hs : settleUpdate now fi with
    | none =>
      simp only [List.filterMap_cons, hs]
      cases hiid : fi.item_id with
      | none => simpa [refIds, List.filterMap_cons, hiid] using ih
      | some a =>
        have hr : refIds (fi :: fs) = a :: refIds fs := by
          simp [refIds, List.filterMap_cons, hiid]
        rw [hr]
        exact ih.cons a
    | some q =>
      have hfi := settleUpdate_id now fi q hs
      have hr : refIds (fi :: fs) = q.1 :: refIds fs := by
        simp [refIds, List.filterMap_cons, hfi]
      simp only [List.filterMap_cons, hs, List.map_cons]
      rw [hr]
      exact ih.cons₂ q.1

theorem settle_shape (now : Nat) (fi : FutureInfo) (p : Nat × ItemUpdates)
    (h : settleUpdate now fi = some p) :
    (∃ x, p.2 = { status := some .ready, image := some (some x) }) ∨
    p.2 = { status := some .failed, image := none } ∨
    p.2 = { status := some .timeout, image := none } := by
  rcases fi with ⟨fst, pr, iid, pst⟩
  cases iid with
  | none => simp [settleUpdate] at h
  | some i =>
    cases fst with
    | queued => simp [settleUpdate] at h
    | running =>
      cases pst with
      | none => simp [settleUpdate] at h
      | some t0 =>
        by_cases ht : now - t0 > TASK_TIMEOUT
        · simp only [settleUpdate, if_pos ht] at h
          injection h with h'
          rw [← h']
          exact Or.inr (Or.inr rfl)
        · simp [settleUpdate, ht] at h
    | doneOk img =>
      cases img with
      | none =>
        simp only [settleUpdate] at h
        injection h with h'
        rw [← h']
        exact Or.inr (Or.inl rfl)
      | some x =>
        simp only [settleUpdate] at h
        injection h with h'
        rw [← h']
        exact Or.inl ⟨x, rfl⟩
    | doneRaiseTimeout =>
      simp only [settleUpdate] at h
      injection h with h'
      rw [← h']
      exact Or.inr (Or.inr rfl)
    | doneRaiseError =>
      simp only [settleUpdate] at h
      injection h with h'
      rw [← h']
      exact Or.inr (Or.inl rfl)

theorem refIds_map_pres (g : FutureInfo → FutureInfo)
    (hg : ∀ fi, (g fi).item_id = fi.item_id) (fs : List FutureInfo) :
    refIds (fs.map g) = refIds fs := by
  induction fs with
  | nil => rfl
  | cons fi fs ih =>
    unfold refIds at *
    rw [List.map_cons, List.filterMap_cons, List.filterMap_cons, hg]
    cases fi.item_id <;> simp [ih]

theorem mem_pass_futures (now : Nat) (fs : List FutureInfo)
    (g' : FutureInfo)
    (h : g' ∈ (fs.filter (keepF now)).map (touchStart now)) :
    ∃ g, g ∈ fs ∧ keepF now g = true ∧ g' = touchStart now g ∧
      g'.item_id = g.item_id := by
  rcases List.mem_map.mp h with ⟨g, hg, rfl⟩
  have hf := List.mem_filter.mp hg
  exact ⟨g, hf.1, hf.2, rfl, touchStart_item_id now g⟩

theorem refIds_filter_touch_sublist (now : Nat) (fs : List FutureInfo) :
    (refIds ((fs.filter (keepF now)).map (touchStart now))).Sublist
      (refIds fs) := by
  rw [refIds_map_pres (touchStart now) (touchStart_item_id now)]
  exact (fs.filter_sublist).filterMap _

theorem ids_lt_of_map_id_eq (q q' : List Item) (n : Nat)
    (h : q'.map (·.id) = q.map (·.id))
    (hlt : ∀ it ∈ q, it.id < n) :
    ∀ it ∈ q', it.id < n := by
  intro it hit
  have hmem : it.id ∈ q'.map (·.id) := List.mem_map_of_mem _ hit
  rw [h] at hmem
  rcases List.mem_map.mp hmem with ⟨it0, h0, he⟩
  rw [← he]
  exact hlt it0 h0

theorem applyUpdates_ItemInv (u : ItemUpdates) (it : Item)
    (hinv : ItemInv it)
    (hok : (∃ x, u.image = some (some x) ∧ u.status = some .ready) ∨
      (u.image = none ∧ (∀ st, u.status = some st → st ≠ .ready) ∧
        it.image = none)) :
    ItemInv (applyUpdates u it) := by
  rcases hok with ⟨x, hi, hs⟩ | ⟨hi, hs, himg⟩
  · right
    exact ⟨x, by simp [applyUpdates, hi], by simp [applyUpdates, hs]⟩
  · left
    refine ⟨by simp [applyUpdates, hi, himg], ?_⟩
    cases hu : u.status with
    | none =>
      simp only [applyUpdates, hu, Option.getD_none]
      rcases hinv with ⟨_, hst⟩ | ⟨x, hx, _⟩
      · exact hst
      · rw [himg] at hx; cases hx
    | some st =>
      simp only [applyUpdates, hu, Option.getD_some]
      exact hs st hu

theorem applyAll_inv (us : List (Nat × ItemUpdates)) (q : List Item)
    (hnd : (q.map (·.id)).Nodup)
    (hinv : ∀ it ∈ q, ItemInv it)
    (hus : (us.map Prod.fst).Nodup)
    (hok : ∀ p ∈ us, UpdOk q p) :
    ∀ it ∈ applyAll us q, ItemInv it := by
  induction us generalizing q with
  | nil => exact hinv
  | cons p us ih =>
    intro it hit
    have happ : applyAll (p :: us) q =
        applyAll us (updateFirstById p.1 p.2 q).1 := rfl
    rw [happ] at hit
    refine ih (updateFirstById p.1 p.2 q).1 ?_ ?_ ?_ ?_ it hit
    · rw [updateFirstById_map_id]; exact hnd
    · intro it' hit'
      rcases mem_updateFirstById p.1 p.2 q it' hit' with hm | ⟨it0, h0, hid0, he⟩
      · exact hinv it' hm
      · subst he
        apply applyUpdates_ItemInv _ _ (hinv it0 h0)
        rcases hok p (List.mem_cons_self p us) with hca | ⟨hi, hs, hq⟩
        · exact Or.inl hca
        · exact Or.inr ⟨hi, hs, hq it0 h0 hid0⟩
    · exact (List.nodup_cons.mp hus).2
    · intro p' hp'
      rcases hok p' (List.mem_cons_of_mem p hp') with hca | ⟨hi, hs, hq⟩
      · exact Or.inl hca
      · refine Or.inr ⟨hi, hs, ?_⟩
        intro it' hit' hid'
        rcases mem_updateFirstById p.1 p.2 q it' hit' with hm | ⟨it0, h0, hid0, he⟩
        · exact hq it' hm hid'
        · exfalso
          have hne : p'.1 ≠ p.1 := by
            intro hc
            exact (List.nodup_cons.mp hus).1
              (hc ▸ List.mem_map_of_mem Prod.fst hp')
          apply hne
          rw [← hid', he, applyUpdates_id]
          exact hid0

theorem retry_characterization (s : AppState) (i : Nat) :
    retry_timed_out_image i s = s ∨
    ∃ it, getById i s.review_queue = some it ∧ it.status = .timeout ∧
      (retry_timed_out_image i s).review_queue =
        (updateFirstById i { status := some .generating, image := some none }
          s.review_queue).1 ∧
      (retry_timed_out_image i s).next_id = s.next_id ∧
      ((retry_timed_out_image i s).background_futures =
          s.background_futures ∨
       ∃ nf, (retry_timed_out_image i s).background_futures =
          s.background_futures ++ [nf] ∧ nf.item_id = some i) := by
  cases hfind : s.review_queue.find? (fun x => x.id = i) with
  | none =>
    left
    unfold retry_timed_out_image
    rw [hfind]
  | some it =>
    by_cases hstat : it.status = .timeout
    · right
      have hcond : ¬ (it.status ≠ Status.timeout) := by simp [hstat]
      cases hty : it.itype with
      | text_to_image =>
        have hres : retry_timed_out_image i s =
            { s with
              review_queue := (updateFirstById i
                { status := some .generating, image := some none }
                s.review_queue).1
              background_futures := s.background_futures ++
                [{ fstate := .queued
                   prompt := "Retry: " ++ it.prompt.take 40 ++ "..."
                   item_id := some i }] } := by
          unfold retry_timed_out_image
          rw [hfind]
          dsimp only
          rw [if_neg hcond, hty]
        exact ⟨it, hfind, hstat, by rw [hres], by rw [hres],
          Or.inr ⟨_, by rw [hres], rfl⟩⟩
      | image_to_image =>
        cases hsrc : it.original_image.orElse (fun _ => it.source_image) with
        | none =>
          have hres : retry_timed_out_image i s =
              { s with
                review_queue := (updateFirstById i
                  { status := some .generating, image := some none }
                  s.review_queue).1 } := by
            unfold retry_timed_out_image
            rw [hfind]
            dsimp only
            rw [if_neg hcond, hty, hsrc]
          exact ⟨it, hfind, hstat, by rw [hres], by rw [hres],
            Or.inl (by rw [hres])⟩
        | some src =>
          have hres : retry_timed_out_image i s =
              { s with
                review_queue := (updateFirstById i
                  { status := some .generating, image := some none }
                  s.review_queue).1
                background_futures := s.background_futures ++
                  [{ fstate := .queued
                     prompt := "Retry transform: " ++
                       it.modification_prompt.take 40 ++ "..."
                     item_id := some i }] } := by
            unfold retry_timed_out_image
            rw [hfind]
            dsimp only
            rw [if_neg hcond, hty, hsrc]
          exact ⟨it, hfind, hstat, by rw [hres], by rw [hres],
            Or.inr ⟨_, by rw [hres], rfl⟩⟩
    · left
      unfold retry_timed_out_image
      rw [hfind]
      dsimp only
      rw [if_pos hstat]

theorem inv_env (s : AppState) (f : FutureInfo → FState) (h : Inv s) :
    Inv { s with background_futures :=
      s.background_futures.map (fun fi => { fi with fstate := f fi }) } := by
  obtain ⟨h1, h2, h3, h4, h5, h6⟩ := h
  refine ⟨h1, h2, h3, ?_, ?_, ?_⟩
  · intro fi hfi j hj
    have hfi' : fi ∈ s.background_futures.map
        (fun fi => { fi with fstate := f fi }) := hfi
    rcases List.mem_map.mp hfi' with ⟨g, hg, he⟩
    rw [← he] at hj
    exact h4 g hg j hj
  · show (refIds (s.background_futures.map
      (fun fi => { fi with fstate := f fi }))).Nodup
    rw [refIds_map_pres (fun fi => { fi with fstate := f fi })
      (fun fi => rfl)]
    exact h5
  · intro fi hfi j hj it hit hid
    have hfi' : fi ∈ s.background_futures.map
        (fun fi => { fi with fstate := f fi }) := hfi
    rcases List.mem_map.mp hfi' with ⟨g, hg, he⟩
    rw [← he] at hj
    exact h6 g hg j hj it hit hid

theorem inv_enqueue (s : AppState) (ps : List String) (h : Inv s) :
    Inv (generate_from_prompts ps s) := by
  obtain ⟨h1, h2, h3, h4, h5, h6⟩ := h
  refine ⟨?_, ?_, ?_, ?_, ?_, ?_⟩
  · intro it hit
    have hit' : it ∈ s.review_queue ++ enqueueItems s.next_id ps := hit
    rcases List.mem_append.mp hit' with hm | hm
    · exact h1 it hm
    · obtain ⟨hi, hst, -, -, -⟩ := mem_enqueueItems _ _ it hm
      exact Or.inl ⟨hi, by rw [hst]; exact fun hc => Status.noConfusion hc⟩
  · show ((s.review_queue ++ enqueueItems s.next_id ps).map (·.id)).Nodup
    rw [List.map_append]
    refine List.Nodup.append h2 (enqueueItems_ids_nodup _ _) ?_
    intro a ha hb
    rcases List.mem_map.mp ha with ⟨it0, h0, he⟩
    rcases List.mem_map.mp hb with ⟨it1, h1', he1⟩
    have hlt := h3 it0 h0
    have hge := (mem_enqueueItems _ _ it1 h1').2.2.2.1
    rw [he] at hlt
    rw [he1] at hge
    omega
  · intro it hit
    show it.id < s.next_id + ps.length
    have hit' : it ∈ s.review_queue ++ enqueueItems s.next_id ps := hit
    rcases List.mem_append.mp hit' with hm | hm
    · exact Nat.lt_of_lt_of_le (h3 it hm) (Nat.le_add_right _ _)
    · exact (mem_enqueueItems _ _ it hm).2.2.2.2
  · intro fi hfi j hj
    show j < s.next_id + ps.length
    have hfi' : fi ∈ s.background_futures ++
        (enqueueItems s.next_id ps).map (fun it =>
          ({ fstate := .queued, prompt := it.prompt, item_id := some it.id } :
            FutureInfo)) := hfi
    rcases List.mem_append.mp hfi' with hm | hm
    · exact Nat.lt_of_lt_of_le (h4 fi hm j hj) (Nat.le_add_right _ _)
    · rcases List.mem_map.mp hm with ⟨it0, h0, he⟩
      rw [← he] at hj
      injection hj with hj'
      rw [← hj']
      exact (mem_enqueueItems _ _ it0 h0).2.2.2.2
  · show (refIds (s.background_futures ++
      (enqueueItems s.next_id ps).map (fun it =>
        ({ fstate := .queued, prompt := it.prompt, item_id := some it.id } :
          FutureInfo)))).Nodup
    rw [refIds_append, refIds_enqueue_futures]
    refine List.Nodup.append h5 (enqueueItems_ids_nodup _ _) ?_
    intro a ha hb
    rcases List.mem_filterMap.mp ha with ⟨g, hg, hgid⟩
    have hlt := h4 g hg a hgid
    rcases List.mem_map.mp hb with ⟨it1, h1', he1⟩
    have hge := (mem_enqueueItems _ _ it1 h1').2.2.2.1
    rw [he1] at hge
    omega
  · intro fi hfi j hj it hit hid
    have hfi' : fi ∈ s.background_futures ++
        (enqueueItems s.next_id ps).map (fun it =>
          ({ fstate := .queued, prompt := it.prompt, item_id := some it.id } :
            FutureInfo)) := hfi
    have hit' : it ∈ s.review_queue ++ enqueueItems s.next_id ps := hit
    rcases List.mem_append.mp hfi' with hfm | hfm
    · have hjlt : j < s.next_id := h4 fi hfm j hj
      rcases List.mem_append.mp hit' with him | him
      · exact h6 fi hfm j hj it him hid
      · exfalso
        have hge := (mem_enqueueItems _ _ it him).2.2.2.1
        rw [hid] at hge
        omega
    · rcases List.mem_map.mp hfm with ⟨it0, h0, he⟩
      rw [← he] at hj
      injection hj with hj'
      have hge : s.next_id ≤ j := by
        rw [← hj']
        exact (mem_enqueueItems _ _ it0 h0).2.2.2.1
      rcases List.mem_append.mp hit' with him | him
      · exfalso
        have hlt := h3 it him
        rw [hid] at hlt
        omega
      · obtain ⟨hi, hst, -, -, -⟩ := mem_enqueueItems _ _ it him
        exact ⟨hst, hi⟩

theorem inv_pass (s : AppState) (now : Nat) (h : Inv s) :
    Inv (check_background_tasks now s).state := by
  obtain ⟨h1, h2, h3, h4, h5, h6⟩ := h
  have hq := check_background_tasks_queue now s
  have hf := check_background_tasks_futures now s
  have hmisc := check_background_tasks_misc now s
  have hmapid : (check_background_tasks now s).state.review_queue.map (·.id) =
      s.review_queue.map (·.id) := by
    rw [hq]; exact applyAll_map_id _ _
  have husnd : ((s.background_futures.filterMap (settleUpdate now)).map
      Prod.fst).Nodup :=
    h5.sublist (settle_ids_sublist now s.background_futures)
  have hok : ∀ p ∈ s.background_futures.filterMap (settleUpdate now),
      UpdOk s.review_queue p := by
    intro p hp
    rcases List.mem_filterMap.mp hp with ⟨fi, hfi, hs⟩
    have hfid := settleUpdate_id now fi p hs
    rcases settle_shape now fi p hs with ⟨x, hsh⟩ | hsh | hsh
    · exact Or.inl ⟨x, by rw [hsh], by rw [hsh]⟩
    · refine Or.inr ⟨by rw [hsh], ?_, ?_⟩
      · intro st hst hc
        rw [hsh] at hst
        injection hst with h'
        rw [← h'] at hc
        exact Status.noConfusion hc
      · intro it hit hid
        exact (h6 fi hfi p.1 hfid it hit hid).2
    · refine Or.inr ⟨by rw [hsh], ?_, ?_⟩
      · intro st hst hc
        rw [hsh] at hst
        injection hst with h'
        rw [← h'] at hc
        exact Status.noConfusion hc
      · intro it hit hid
        exact (h6 fi hfi p.1 hfid it hit hid).2
  refine ⟨?_, ?_, ?_, ?_, ?_, ?_⟩
  · rw [hq]
    exact applyAll_inv _ _ h2 h1 husnd hok
  · rw [hmapid]; exact h2
  · rw [hmisc.1]
    exact ids_lt_of_map_id_eq s.review_queue _ s.next_id hmapid h3
  · intro fi hfi j hj
    rw [hmisc.1]
    rw [hf] at hfi
    obtain ⟨g, hg, hkeep, he, hpres⟩ := mem_pass_futures now _ fi hfi
    have hgid : g.item_id = some j := by rw [← hpres]; exact hj
    exact h4 g hg j hgid
  · rw [hf]
    exact h5.sublist (refIds_filter_touch_sublist now s.background_futures)
  · intro fi hfi j hj it hit hid
    rw [hf] at hfi
    obtain ⟨g, hg, hkeep, he, hpres⟩ := mem_pass_futures now _ fi hfi
    have hgid : g.item_id = some j := by rw [← hpres]; exact hj
    have hnd' : ((check_background_tasks now s).state.review_queue.map
        (·.id)).Nodup := by rw [hmapid]; exact h2
    have hget : getById j (check_background_tasks now s).state.review_queue =
        some it := by
      rw [← hid]
      exact getById_eq_some_of_mem _ it hnd' hit
    have hframe : getById j
        (check_background_tasks now s).state.review_queue =
        getById j s.review_queue := by
      rw [hq]
      exact applyAll_frame _ _ j
        (no_settle_id_of_kept now j s.background_futures h5 g hg hkeep hgid)
    obtain ⟨hmem, hid2⟩ := mem_of_getById j s.review_queue it
      (by rw [← hframe]; exact hget)
    exact h6 g hg j hgid it hmem hid2

theorem inv_retry (s : AppState) (i : Nat) (h : Inv s) :
    Inv (retry_timed_out_image i s) := by
  obtain ⟨h1, h2, h3, h4, h5, h6⟩ := h
  rcases retry_characterization s i with heq | ⟨it, hfind, hstat, hqeq, hnid, hfeq⟩
  · rw [heq]; exact ⟨h1, h2, h3, h4, h5, h6⟩
  · obtain ⟨hitmem, hitid⟩ := mem_of_getById i s.review_queue it hfind
    have hilt : i < s.next_id := by rw [← hitid]; exact h3 it hitmem
    have hnoref : ∀ g ∈ s.background_futures, g.item_id ≠ some i := by
      intro g hg hc
      have hgen := (h6 g hg i hc it hitmem hitid).1
      rw [hstat] at hgen
      exact Status.noConfusion hgen
    have hmapid : (retry_timed_out_image i s).review_queue.map (·.id) =
        s.review_queue.map (·.id) := by
      rw [hqeq]; exact updateFirstById_map_id _ _ _
    have hnd' : ((retry_timed_out_image i s).review_queue.map
        (·.id)).Nodup := by
      rw [hmapid]; exact h2
    refine ⟨?_, hnd', ?_, ?_, ?_, ?_⟩
    · intro it' hit'
      rw [hqeq] at hit'
      rcases mem_updateFirstById _ _ _ it' hit' with hm | ⟨it0, h0, hid0, he⟩
      · exact h1 it' hm
      · subst he
        exact Or.inl ⟨rfl, fun hc => Status.noConfusion hc⟩
    · rw [hnid]
      exact ids_lt_of_map_id_eq s.review_queue _ s.next_id hmapid h3
    · intro fi hfi j hj
      rw [hnid]
      rcases hfeq with hsame | ⟨nf, happ, hnfid⟩
      · rw [hsame] at hfi; exact h4 fi hfi j hj
      · rw [happ] at hfi
        rcases List.mem_append.mp hfi with hold | hnew
        · exact h4 fi hold j hj
        · have he := List.mem_singleton.mp hnew
          rw [he, hnfid] at hj
          injection hj with hj'
          rw [← hj']
          exact hilt
    · rcases hfeq with hsame | ⟨nf, happ, hnfid⟩
      · rw [hsame]; exact h5
      · rw [happ, refIds_append]
        have hnfr : refIds [nf] = [i] := by
          simp [refIds, List.filterMap_cons, hnfid]
        rw [hnfr]
        refine List.Nodup.append h5 (List.nodup_singleton i) ?_
        intro a ha hb
        rcases List.mem_filterMap.mp ha with ⟨g, hg, hgid⟩
        rw [List.mem_singleton.mp hb] at hgid
        exact hnoref g hg hgid
    · intro fi hfi j hj it' hit' hid'
      have hget : getById j (retry_timed_out_image i s).review_queue =
          some it' := by
        rw [← hid']
        exact getById_eq_some_of_mem _ it' hnd' hit'
      by_cases hji : j = i
      · subst hji
        have hup : getById j (retry_timed_out_image j s).review_queue =
            some (applyUpdates
              { status := some .generating, image := some none } it) := by
          rw [hqeq, getById_updateFirstById_self, hfind]
          rfl
        have heq2 := hget.symm.trans hup
        injection heq2 with h'
        rw [h']
        exact ⟨rfl, rfl⟩
      · have hfimem : fi ∈ s.background_futures := by
          rcases hfeq with hsame | ⟨nf, happ, hnfid⟩
          · rw [hsame] at hfi; exact hfi
          · rw [happ] at hfi
            rcases List.mem_append.mp hfi with hold | hnew
            · exact hold
            · exfalso
              have he := List.mem_singleton.mp hnew
              rw [he, hnfid] at hj
              injection hj with hj'
              exact hji hj'.symm
        have hgb : getById j (retry_timed_out_image i s).review_queue =
            getById j s.review_queue := by
          rw [hqeq]
          exact getById_updateFirstById_ne i j _ _ hji
        obtain ⟨hmem2, hid2⟩ := mem_of_getById j s.review_queue it'
          (by rw [← hgb]; exact hget)
        exact h6 fi hfimem j hj it' hmem2 hid2

theorem inv_init : Inv init_session_state := by
  refine ⟨?_, ?_, ?_, ?_, ?_, ?_⟩ <;> simp [init_session_state, refIds]

theorem inv_apply (s : AppState) (op : Op) (h : Inv s) :
    Inv (applyOp s op) := by
  cases op with
  | enqueue ps => exact inv_enqueue s ps h
  | pass now => exact inv_pass s now h
  | retry i => exact inv_retry s i h
  | env f => exact inv_env s f h

theorem inv_foldl (ops : List Op) (s : AppState) (h : Inv s) :
    Inv (ops.foldl applyOp s) := by
  induction ops generalizing s with
  | nil => exact h
  | cons op ops ih => exact ih _ (inv_apply s op h)

theorem inv_run (ops : List Op) : Inv (run ops) :=
  inv_foldl ops init_session_state inv_init

/-- C1: for every item in the review queue after any sequence of enqueue,
reconciler pass, retry, and worker-pool progress operations, exactly one
of the two configurations holds: the result image is absent and the status
is one of generating, failed, timeout, cancelled; or the result image is
present and the status is ready. -/
theorem c1_status_image_invariant (ops : List Op) (it : Item)
    (h : it ∈ (run ops).review_queue) :
    Xor'
      (it.image = none ∧
        (it.status = .generating ∨ it.status = .failed ∨
         it.status = .timeout ∨ it.status = .cancelled))
      ((∃ x, it.image = some x) ∧ it.status = .ready) := by
  have hinv := (inv_run ops).1 it h
  rcases hinv with ⟨hi, hs⟩ | ⟨x, hi, hs⟩
  · left
    refine ⟨⟨hi, ?_⟩, ?_⟩
    · cases hst : it.status with
      | ready => exact absurd hst hs
      | generating => exact Or.inl rfl
      | failed => exact Or.inr (Or.inl rfl)
      | timeout => exact Or.inr (Or.inr (Or.inl rfl))
      | cancelled => exact Or.inr (Or.inr (Or.inr rfl))
    · rintro ⟨⟨x, hx⟩, -⟩
      rw [hi] at hx
      cases hx
  · right
    refine ⟨⟨⟨x, hi⟩, hs⟩, ?_⟩
    rintro ⟨hnone, -⟩
    rw [hi] at hnone
    cases hnone

/-- C1 witness: the invariant evaluated on the item produced by a concrete
trace that enqueues one prompt, lets it run and pass through a reconciler
cycle. -/
theorem c1_status_image_invariant_witness :
    (mkTextItem 0 "hello world" ∈
      (run [Op.enqueue ["hello world"]]).review_queue) ∧
    Xor'
      ((mkTextItem 0 "hello world").image = none ∧
        ((mkTextItem 0 "hello world").status = .generating ∨
         (mkTextItem 0 "hello world").status = .failed ∨
         (mkTextItem 0 "hello world").status = .timeout ∨
         (mkTextItem 0 "hello world").status = .cancelled))
      ((∃ x, (mkTextItem 0 "hello world").image = some x) ∧
        (mkTextItem 0 "hello world").status = .ready) :=
  ⟨by decide,
   c1_status_image_invariant [Op.enqueue ["hello world"]]
     (mkTextItem 0 "hello world") (by decide)⟩

end AIandMan

